import Mathlib

/-!
Verification of the SSZ-style codec underlying the `ssz_types` beacon-block
record catalogue.  The record shapes (structures, field order, element
bounds) are taken from `src/beacon_block.rs`.  The codec itself — the
heterogeneous container encoding with its offset table, the bounded list
and fixed vector sequence types, and the two bit-field types — is not
shipped under `src/`, so every codec definition below is modelled from the
specification document (its doc comment says so and names the section it
follows).
-/

set_option maxHeartbeats 1000000
set_option maxRecDepth 100000

/-- A byte of the wire format. -/
abbrev Byte := Fin 256

/-- Modelled from the spec: the decode-error taxonomy of §7 (the codec's
error enum is not under `src/`). -/
inductive DecodeError where
  | lengthMismatch
  | offsetOutOfBounds
  | offsetNotIncreasing
  | invalidBoundedLength
  | invalidPadding
  | missingDelimiter
  | extraBitsAfterDelimiter
  deriving DecidableEq, Repr

/-- Modelled from the spec: §4.1, little-endian fixed-width unsigned
integer encoding; byte `i` holds bits `8i..8i+7` of the value. -/
def encodeUintLE : Nat → Nat → List Byte
  | 0, _ => []
  | w + 1, v => ⟨v % 256, Nat.mod_lt _ (by decide)⟩ :: encodeUintLE w (v / 256)

/-- Modelled from the spec: §4.1, the unsigned value denoted by a
little-endian byte string. -/
def uintValLE : List Byte → Nat
  | [] => 0
  | b :: bs => b.val + 256 * uintValLE bs

theorem encodeUintLE_length (w v : Nat) : (encodeUintLE w v).length = w := by
  induction w generalizing v with
  | zero => rfl
  | succ w ih => simp [encodeUintLE, ih]

theorem uintValLE_encodeUintLE (w v : Nat) :
    uintValLE (encodeUintLE w v) = v % 256 ^ w := by
  induction w generalizing v with
  | zero => simp [encodeUintLE, uintValLE, Nat.mod_one]
  | succ w ih =>
    have hpow : (256 : Nat) ^ (w + 1) = 256 * 256 ^ w := by
      rw [pow_succ, Nat.mul_comm]
    simp only [encodeUintLE, uintValLE, ih, hpow]
    exact (Nat.mod_mul).symm

theorem uintValLE_lt (bs : List Byte) : uintValLE bs < 256 ^ bs.length := by
  induction bs with
  | nil => simp [uintValLE]
  | cons b bs ih =>
    have hb := b.isLt
    have hpow : (256 : Nat) ^ (b :: bs).length = 256 * 256 ^ bs.length := by
      rw [List.length_cons, pow_succ, Nat.mul_comm]
    rw [uintValLE, hpow]
    omega

/-- Modelled from the spec: §4.4, value of a bit string read with bit 0
least significant. -/
def bitsVal : List Bool → Nat
  | [] => 0
  | b :: bs => b.toNat + 2 * bitsVal bs

theorem bitsVal_lt (bs : List Bool) : bitsVal bs < 2 ^ bs.length := by
  induction bs with
  | nil => simp [bitsVal]
  | cons b bs ih =>
    have hb := Bool.toNat_lt b
    have hpow : (2 : Nat) ^ (b :: bs).length = 2 * 2 ^ bs.length := by
      rw [List.length_cons, pow_succ, Nat.mul_comm]
    rw [bitsVal, hpow]
    omega

theorem testBit_bitsVal (bs : List Bool) (i : Nat) :
    Nat.testBit (bitsVal bs) i = bs.getD i false := by
  induction bs generalizing i with
  | nil => simp [bitsVal, Nat.zero_testBit, List.getD]
  | cons b bs ih =>
    cases i with
    | zero =>
      rw [bitsVal, Nat.testBit_zero]
      have hmod : (b.toNat + 2 * bitsVal bs) % 2 = b.toNat := by
        rw [Nat.add_mul_mod_self_left]
        exact Nat.mod_eq_of_lt (Bool.toNat_lt b)
      rw [hmod]
      cases b <;> simp [List.getD]
    | succ i =>
      rw [bitsVal, Nat.testBit_succ]
      have hdiv : (b.toNat + 2 * bitsVal bs) / 2 = bitsVal bs := by
        rw [Nat.add_mul_div_left _ _ (by decide : 0 < 2)]
        cases b <;> simp
      rw [hdiv, ih]
      simp [List.getD]

/-- Modelled from the spec: §4.4, a byte holding up to eight bits,
least-significant bit first. -/
def byteOfBits (bs : List Bool) : Byte := ⟨bitsVal bs % 256, Nat.mod_lt _ (by decide)⟩

/-- Modelled from the spec: §4.4, pack a bit string into bytes (bit 0 of
the sequence is the least-significant bit of byte 0), zero-padding the
final byte. -/
def packBits (bs : List Bool) : List Byte :=
  (List.range ((bs.length + 7) / 8)).map fun j => byteOfBits ((bs.drop (8 * j)).take 8)

/-- Bit `i` of a byte buffer (bit 0 is the least-significant bit of
byte 0); bits beyond the buffer read as `false`. -/
def bufBit (buf : List Byte) (i : Nat) : Bool :=
  Nat.testBit (buf.getD (i / 8) 0).val (i % 8)

/-- The first `n` bits of a byte buffer. -/
def unpackBits (buf : List Byte) (n : Nat) : List Bool := (List.range n).map (bufBit buf)

theorem packBits_length (bs : List Bool) :
    (packBits bs).length = (bs.length + 7) / 8 := by
  simp [packBits]

theorem unpackBits_length (buf : List Byte) (n : Nat) :
    (unpackBits buf n).length = n := by
  simp [unpackBits]

theorem byteOfBits_val (bs : List Bool) (h : bs.length ≤ 8) :
    (byteOfBits bs).val = bitsVal bs := by
  have := bitsVal_lt bs
  have h2 : (2 : Nat) ^ bs.length ≤ 2 ^ 8 := Nat.pow_le_pow_right (by decide) h
  exact Nat.mod_eq_of_lt (by omega)

theorem length_le_mul_ceilDiv (n : Nat) : n ≤ 8 * ((n + 7) / 8) := by
  have h1 := Nat.div_add_mod (n + 7) 8
  have h2 : (n + 7) % 8 < 8 := Nat.mod_lt _ (by decide)
  omega

theorem getD_eq_of_getElem? {α : Type} (l : List α) (i : Nat) (d a : α)
    (h : l[i]? = some a) : l.getD i d = a := by
  rw [List.getD_eq_getElem?_getD, h]; rfl

theorem getD_eq_default_of_le {α : Type} (l : List α) (i : Nat) (d : α)
    (h : l.length ≤ i) : l.getD i d = d := by
  rw [List.getD_eq_getElem?_getD, List.getElem?_eq_none h]; rfl

theorem bufBit_packBits (bs : List Bool) (i : Nat) :
    bufBit (packBits bs) i = bs.getD i false := by
  have hmod8 : i % 8 < 8 := Nat.mod_lt _ (by decide)
  have hdm := Nat.div_add_mod i 8
  by_cases hj : i / 8 < (bs.length + 7) / 8
  · have hbyte : (packBits bs).getD (i / 8) 0
        = byteOfBits ((bs.drop (8 * (i / 8))).take 8) := by
      apply getD_eq_of_getElem?
      rw [packBits, List.getElem?_map, List.getElem?_range hj]
      rfl
    rw [bufBit, hbyte, byteOfBits_val _ (List.length_take_le 8 _), testBit_bitsVal]
    rw [List.getD_eq_getElem?_getD, List.getElem?_take, if_pos hmod8,
      List.getElem?_drop, ← List.getD_eq_getElem?_getD]
    have heq : 8 * (i / 8) + i % 8 = i := by omega
    rw [heq]
  · have hlen : (packBits bs).length ≤ i / 8 := by
      rw [packBits_length]; omega
    have hbs : bs.length ≤ i := by
      have h8 := length_le_mul_ceilDiv bs.length
      have : 8 * ((bs.length + 7) / 8) ≤ 8 * (i / 8) := by omega
      omega
    rw [bufBit, getD_eq_default_of_le _ _ _ hlen, getD_eq_default_of_le _ _ _ hbs]
    simp [Nat.zero_testBit]

theorem map_range_getD {α : Type} (l : List α) (d : α) :
    (List.range l.length).map (fun i => l.getD i d) = l := by
  apply List.ext_getElem
  · simp
  · intro i h1 h2
    simp only [List.getElem_map, List.getElem_range]
    rw [List.getD_eq_getElem?_getD, List.getElem?_eq_getElem h2]
    rfl

theorem unpackBits_packBits (bs : List Bool) :
    unpackBits (packBits bs) bs.length = bs := by
  rw [unpackBits]
  have : ∀ i ∈ List.range bs.length, bufBit (packBits bs) i = bs.getD i false :=
    fun i _ => bufBit_packBits bs i
  rw [List.map_congr_left this, map_range_getD]

/-- Modelled from the spec: §4.6, bytes a field occupies in the fixed
region — its own width if fixed-size, a 4-byte offset slot if variable. -/
def slotLen (f : Bool × Nat) : Nat := if f.1 then f.2 else 4

/-- Modelled from the spec: §4.6, fixed-region length of a container
layout (sum of fixed-field widths plus 4 bytes per variable field). -/
def fixedRegionLen (layout : List (Bool × Nat)) : Nat := (layout.map slotLen).sum

/-- The static layout induced by a concrete field list (`true` marks a
fixed-size field, paired with its byte width). -/
def layoutOfFields (fields : List (Bool × List Byte)) : List (Bool × Nat) :=
  fields.map fun f => (f.1, f.2.length)

/-- Number of variable-size fields in a layout. -/
def numVar (layout : List (Bool × Nat)) : Nat := (layout.filter (fun f => !f.1)).length

/-- Total number of bytes the variable region of a field list holds. -/
def varTotal : List (Bool × List Byte) → Nat
  | [] => 0
  | f :: fs => (if f.1 then 0 else f.2.length) + varTotal fs

/-- Modelled from the spec: §4.6 encode, the fixed region — each fixed
field's bytes in declared order, and per variable field a 4-byte offset
slot holding fixed-region length plus variable bytes written so far. -/
def encodeFieldsFix (fl : Nat) : List (Bool × List Byte) → Nat → List Byte
  | [], _ => []
  | f :: fs, varLen =>
    if f.1 then f.2 ++ encodeFieldsFix fl fs varLen
    else encodeUintLE 4 (fl + varLen) ++ encodeFieldsFix fl fs (varLen + f.2.length)

/-- Modelled from the spec: §4.6 encode, the variable region — the
concatenated encodings of the variable fields in field order. -/
def encodeFieldsVar : List (Bool × List Byte) → List Byte
  | [] => []
  | f :: fs => (if f.1 then [] else f.2) ++ encodeFieldsVar fs

/-- Modelled from the spec: §4.6 encode for heterogeneous containers —
fixed region followed by variable region. -/
def containerEncode (fields : List (Bool × List Byte)) : List Byte :=
  encodeFieldsFix (fixedRegionLen (layoutOfFields fields)) fields 0 ++ encodeFieldsVar fields

/-- A slot read from the fixed region: a fixed field's bytes, or the
offset announced for a variable field. -/
inductive Slot where
  | fixedSlot (bytes : List Byte)
  | varSlot (off : Nat)

/-- Modelled from the spec: §4.1/§4.6, read a 4-byte little-endian offset
at a given byte position of the buffer. -/
def readUint32 (buf : List Byte) (pos : Nat) : Nat := uintValLE ((buf.drop pos).take 4)

/-- Modelled from the spec: §4.6 decode, walk the fixed region in field
order, reading fixed fields at their positions and the offset slots. -/
def readSlots (buf : List Byte) : List (Bool × Nat) → Nat → List Slot
  | [], _ => []
  | f :: fs, pos =>
    if f.1 then .fixedSlot ((buf.drop pos).take f.2) :: readSlots buf fs (pos + f.2)
    else .varSlot (readUint32 buf pos) :: readSlots buf fs (pos + 4)

/-- The offsets among a slot list, in field order. -/
def slotOffsets : List Slot → List Nat
  | [] => []
  | .fixedSlot _ :: ss => slotOffsets ss
  | .varSlot o :: ss => o :: slotOffsets ss

/-- Modelled from the spec: §4.6 decode, each subsequent offset must be
greater than or equal to the previous one. -/
def offsetsMono : List Nat → Bool
  | [] => true
  | [_] => true
  | a :: b :: rest => decide (a ≤ b) && offsetsMono (b :: rest)

/-- Modelled from the spec: §4.6 decode, the first offset must equal the
fixed-region length exactly and the offsets must be non-decreasing. -/
def offsetsOrdered (fl : Nat) (offs : List Nat) : Bool :=
  match offs with
  | [] => true
  | o :: _ => decide (o = fl) && offsetsMono offs

/-- Modelled from the spec: §4.6 decode, a variable field's payload runs
from its offset to the next offset, the final one to the buffer's end. -/
def fillSlots (buf : List Byte) : List Slot → List (List Byte)
  | [] => []
  | .fixedSlot s :: ss => s :: fillSlots buf ss
  | .varSlot o :: ss =>
    (buf.drop o).take (((slotOffsets ss).head?).getD buf.length - o) :: fillSlots buf ss

/-- Modelled from the spec: §4.6 decode — slice a container buffer into
one byte slice per field, validating buffer length, offset ordering and
offset bounds. -/
def containerSlices (layout : List (Bool × Nat)) (buf : List Byte) :
    Except DecodeError (List (List Byte)) :=
  if numVar layout = 0 then
    if buf.length = fixedRegionLen layout then
      .ok (fillSlots buf (readSlots buf layout 0))
    else .error .lengthMismatch
  else if buf.length < fixedRegionLen layout then .error .lengthMismatch
  else if offsetsOrdered (fixedRegionLen layout) (slotOffsets (readSlots buf layout 0)) then
    if (slotOffsets (readSlots buf layout 0)).all (fun o => decide (o ≤ buf.length)) then
      .ok (fillSlots buf (readSlots buf layout 0))
    else .error .offsetOutOfBounds
  else .error .offsetNotIncreasing

/-- The slots that the fixed region of an encoded container denotes. -/
def idealSlots (fl : Nat) : List (Bool × List Byte) → Nat → List Slot
  | [], _ => []
  | f :: fs, v =>
    if f.1 then .fixedSlot f.2 :: idealSlots fl fs v
    else .varSlot (fl + v) :: idealSlots fl fs (v + f.2.length)

theorem encodeFieldsFix_length (fl : Nat) (fs : List (Bool × List Byte)) (v : Nat) :
    (encodeFieldsFix fl fs v).length = fixedRegionLen (layoutOfFields fs) := by
  induction fs generalizing v with
  | nil => simp [encodeFieldsFix, fixedRegionLen, layoutOfFields]
  | cons f fs ih =>
    obtain ⟨b, bytes⟩ := f
    cases b <;>
      simp [encodeFieldsFix, fixedRegionLen, layoutOfFields, slotLen,
        encodeUintLE_length, ih]

theorem encodeFieldsVar_length (fs : List (Bool × List Byte)) :
    (encodeFieldsVar fs).length = varTotal fs := by
  induction fs with
  | nil => rfl
  | cons f fs ih =>
    obtain ⟨b, bytes⟩ := f
    cases b <;> simp [encodeFieldsVar, varTotal, ih]

theorem containerEncode_length (fields : List (Bool × List Byte)) :
    (containerEncode fields).length
      = fixedRegionLen (layoutOfFields fields) + varTotal fields := by
  simp [containerEncode, encodeFieldsFix_length, encodeFieldsVar_length]

theorem varTotal_eq_zero_of_numVar (fields : List (Bool × List Byte))
    (h : numVar (layoutOfFields fields) = 0) : varTotal fields = 0 := by
  induction fields with
  | nil => rfl
  | cons f fs ih =>
    obtain ⟨b, bytes⟩ := f
    cases b with
    | true =>
      simp only [numVar, layoutOfFields, List.map_cons, List.filter] at h
      simp only [varTotal, if_pos rfl]
      simp only [numVar, layoutOfFields] at ih
      simp [ih h]
    | false =>
      simp [numVar, layoutOfFields, List.filter] at h

theorem field_length_le (fields : List (Bool × List Byte)) (f : Bool × List Byte)
    (hf : f ∈ fields) :
    f.2.length ≤ fixedRegionLen (layoutOfFields fields) + varTotal fields := by
  induction fields with
  | nil => cases hf
  | cons g fs ih =>
    obtain ⟨b, bytes⟩ := g
    rcases List.mem_cons.mp hf with h | h
    · subst h
      cases b <;>
        simp [fixedRegionLen, layoutOfFields, varTotal, slotLen] <;> omega
    · have := ih h
      cases b <;>
        simp [fixedRegionLen, layoutOfFields, varTotal, slotLen] <;>
        simp [fixedRegionLen, layoutOfFields] at this <;> omega


@[simp] theorem encodeFieldsFix_nil (fl v : Nat) : encodeFieldsFix fl [] v = [] := rfl

@[simp] theorem encodeFieldsFix_cons_fixed (fl : Nat) (bytes : List Byte)
    (fs : List (Bool × List Byte)) (v : Nat) :
    encodeFieldsFix fl ((true, bytes) :: fs) v = bytes ++ encodeFieldsFix fl fs v := rfl

@[simp] theorem encodeFieldsFix_cons_var (fl : Nat) (bytes : List Byte)
    (fs : List (Bool × List Byte)) (v : Nat) :
    encodeFieldsFix fl ((false, bytes) :: fs) v
      = encodeUintLE 4 (fl + v) ++ encodeFieldsFix fl fs (v + bytes.length) := rfl

@[simp] theorem encodeFieldsVar_nil : encodeFieldsVar [] = [] := rfl

@[simp] theorem encodeFieldsVar_cons_fixed (bytes : List Byte)
    (fs : List (Bool × List Byte)) :
    encodeFieldsVar ((true, bytes) :: fs) = encodeFieldsVar fs := by
  simp [encodeFieldsVar]

@[simp] theorem encodeFieldsVar_cons_var (bytes : List Byte)
    (fs : List (Bool × List Byte)) :
    encodeFieldsVar ((false, bytes) :: fs) = bytes ++ encodeFieldsVar fs := rfl

@[simp] theorem varTotal_nil : varTotal [] = 0 := rfl

@[simp] theorem varTotal_cons_fixed (bytes : List Byte) (fs : List (Bool × List Byte)) :
    varTotal ((true, bytes) :: fs) = varTotal fs := by
  simp [varTotal]

@[simp] theorem varTotal_cons_var (bytes : List Byte) (fs : List (Bool × List Byte)) :
    varTotal ((false, bytes) :: fs) = bytes.length + varTotal fs := rfl

@[simp] theorem layoutOfFields_nil : layoutOfFields [] = [] := rfl

@[simp] theorem layoutOfFields_cons (f : Bool × List Byte) (fs : List (Bool × List Byte)) :
    layoutOfFields (f :: fs) = (f.1, f.2.length) :: layoutOfFields fs := rfl

@[simp] theorem fixedRegionLen_nil : fixedRegionLen [] = 0 := rfl

@[simp] theorem fixedRegionLen_cons_fixed (n : Nat) (fs : List (Bool × Nat)) :
    fixedRegionLen ((true, n) :: fs) = n + fixedRegionLen fs := by
  simp [fixedRegionLen, slotLen]

@[simp] theorem fixedRegionLen_cons_var (n : Nat) (fs : List (Bool × Nat)) :
    fixedRegionLen ((false, n) :: fs) = 4 + fixedRegionLen fs := by
  simp [fixedRegionLen, slotLen]

@[simp] theorem readSlots_nil (buf : List Byte) (pos : Nat) :
    readSlots buf [] pos = [] := rfl

@[simp] theorem readSlots_cons_fixed (buf : List Byte) (n : Nat)
    (fs : List (Bool × Nat)) (pos : Nat) :
    readSlots buf ((true, n) :: fs) pos
      = .fixedSlot ((buf.drop pos).take n) :: readSlots buf fs (pos + n) := rfl

@[simp] theorem readSlots_cons_var (buf : List Byte) (n : Nat)
    (fs : List (Bool × Nat)) (pos : Nat) :
    readSlots buf ((false, n) :: fs) pos
      = .varSlot (readUint32 buf pos) :: readSlots buf fs (pos + 4) := rfl

@[simp] theorem idealSlots_nil (fl v : Nat) : idealSlots fl [] v = [] := rfl

@[simp] theorem idealSlots_cons_fixed (fl : Nat) (bytes : List Byte)
    (fs : List (Bool × List Byte)) (v : Nat) :
    idealSlots fl ((true, bytes) :: fs) v = .fixedSlot bytes :: idealSlots fl fs v := rfl

@[simp] theorem idealSlots_cons_var (fl : Nat) (bytes : List Byte)
    (fs : List (Bool × List Byte)) (v : Nat) :
    idealSlots fl ((false, bytes) :: fs) v
      = .varSlot (fl + v) :: idealSlots fl fs (v + bytes.length) := rfl

@[simp] theorem slotOffsets_nil : slotOffsets [] = [] := rfl

@[simp] theorem slotOffsets_cons_fixed (s : List Byte) (ss : List Slot) :
    slotOffsets (.fixedSlot s :: ss) = slotOffsets ss := rfl

@[simp] theorem slotOffsets_cons_var (o : Nat) (ss : List Slot) :
    slotOffsets (.varSlot o :: ss) = o :: slotOffsets ss := rfl

@[simp] theorem fillSlots_nil (buf : List Byte) : fillSlots buf [] = [] := rfl

@[simp] theorem fillSlots_cons_fixed (buf : List Byte) (s : List Byte) (ss : List Slot) :
    fillSlots buf (.fixedSlot s :: ss) = s :: fillSlots buf ss := rfl

@[simp] theorem fillSlots_cons_var (buf : List Byte) (o : Nat) (ss : List Slot) :
    fillSlots buf (.varSlot o :: ss)
      = (buf.drop o).take (((slotOffsets ss).head?).getD buf.length - o)
          :: fillSlots buf ss := rfl

@[simp] theorem numVar_nil : numVar [] = 0 := rfl

@[simp] theorem numVar_cons_fixed (n : Nat) (fs : List (Bool × Nat)) :
    numVar ((true, n) :: fs) = numVar fs := by
  simp [numVar]

@[simp] theorem numVar_cons_var (n : Nat) (fs : List (Bool × Nat)) :
    numVar ((false, n) :: fs) = numVar fs + 1 := by
  simp [numVar]

theorem readSlots_encode (fl : Nat) (buf : List Byte) :
    ∀ (fs : List (Bool × List Byte)) (pos v : Nat) (tail : List Byte),
      buf.drop pos = encodeFieldsFix fl fs v ++ tail →
      fl + v + varTotal fs < 2 ^ 32 →
      readSlots buf (layoutOfFields fs) pos = idealSlots fl fs v := by
  intro fs
  induction fs with
  | nil => intro pos v tail h hlt; simp
  | cons f fs ih =>
    intro pos v tail h hlt
    obtain ⟨b, bytes⟩ := f
    cases b with
    | true =>
      rw [encodeFieldsFix_cons_fixed, List.append_assoc] at h
      rw [varTotal_cons_fixed] at hlt
      have htake : (buf.drop pos).take bytes.length = bytes := by
        rw [h, List.take_left]
      have hdrop : buf.drop (pos + bytes.length)
          = encodeFieldsFix fl fs v ++ tail := by
        rw [← List.drop_drop, h, List.drop_left]
      rw [layoutOfFields_cons]
      rw [show (((true, bytes) : Bool × List Byte).1, bytes.length) = (true, bytes.length)
        from rfl]
      rw [readSlots_cons_fixed, idealSlots_cons_fixed, htake,
        ih (pos + bytes.length) v tail hdrop hlt]
    | false =>
      rw [encodeFieldsFix_cons_var, List.append_assoc] at h
      rw [varTotal_cons_var] at hlt
      have hofflt : fl + v < 2 ^ 32 := by omega
      set u : List Byte := encodeUintLE 4 (fl + v) with hu
      have h4 : u.length = 4 := encodeUintLE_length 4 _
      have htake : (buf.drop pos).take 4 = u := by
        rw [h, ← h4, List.take_left]
      have hread : readUint32 buf pos = fl + v := by
        rw [readUint32, htake, hu, uintValLE_encodeUintLE]
        have h256 : (256 : Nat) ^ 4 = 2 ^ 32 := by norm_num
        rw [h256]
        exact Nat.mod_eq_of_lt hofflt
      have hdrop : buf.drop (pos + 4)
          = encodeFieldsFix fl fs (v + bytes.length) ++ tail := by
        rw [← List.drop_drop, h, ← h4, List.drop_left]
      have hvt2 : fl + (v + bytes.length) + varTotal fs < 2 ^ 32 := by omega
      rw [layoutOfFields_cons]
      rw [show (((false, bytes) : Bool × List Byte).1, bytes.length)
        = (false, bytes.length) from rfl]
      rw [readSlots_cons_var, idealSlots_cons_var, hread,
        ih (pos + 4) (v + bytes.length) tail hdrop hvt2]

theorem head_slotOffsets_ideal (fl : Nat) :
    ∀ (fs : List (Bool × List Byte)) (v : Nat),
      (slotOffsets (idealSlots fl fs v)).head?
        = if numVar (layoutOfFields fs) = 0 then none else some (fl + v) := by
  intro fs
  induction fs with
  | nil => intro v; simp
  | cons f fs ih =>
    intro v
    obtain ⟨b, bytes⟩ := f
    cases b with
    | true => simp [ih v]
    | false => simp

theorem slotOffsets_ideal_bounds (fl : Nat) :
    ∀ (fs : List (Bool × List Byte)) (v : Nat),
      ∀ o ∈ slotOffsets (idealSlots fl fs v),
        fl + v ≤ o ∧ o ≤ fl + v + varTotal fs := by
  intro fs
  induction fs with
  | nil => intro v o ho; simp at ho
  | cons f fs ih =>
    intro v o ho
    obtain ⟨b, bytes⟩ := f
    cases b with
    | true =>
      rw [idealSlots_cons_fixed, slotOffsets_cons_fixed] at ho
      have := ih v o ho
      rw [varTotal_cons_fixed]
      omega
    | false =>
      rw [idealSlots_cons_var, slotOffsets_cons_var, List.mem_cons] at ho
      rw [varTotal_cons_var]
      rcases ho with h | h
      · omega
      · have := ih (v + bytes.length) o h
        omega

theorem offsetsMono_ideal (fl : Nat) :
    ∀ (fs : List (Bool × List Byte)) (v : Nat),
      offsetsMono (slotOffsets (idealSlots fl fs v)) = true := by
  intro fs
  induction fs with
  | nil => intro v; simp [offsetsMono]
  | cons f fs ih =>
    intro v
    obtain ⟨b, bytes⟩ := f
    cases b with
    | true =>
      rw [idealSlots_cons_fixed, slotOffsets_cons_fixed]
      exact ih v
    | false =>
      rw [idealSlots_cons_var, slotOffsets_cons_var]
      cases hrest : slotOffsets (idealSlots fl fs (v + bytes.length)) with
      | nil => simp [offsetsMono]
      | cons o rest =>
        have hmem : o ∈ slotOffsets (idealSlots fl fs (v + bytes.length)) := by
          rw [hrest]; exact List.mem_cons_self _ _
        have hb := slotOffsets_ideal_bounds fl fs (v + bytes.length) o hmem
        have hmono := ih (v + bytes.length)
        rw [hrest] at hmono
        rw [offsetsMono, hmono, Bool.and_true, decide_eq_true_eq]
        omega

theorem fillSlots_ideal (fl : Nat) (buf : List Byte) :
    ∀ (fs : List (Bool × List Byte)) (v : Nat),
      buf.drop (fl + v) = encodeFieldsVar fs →
      buf.length = fl + v + varTotal fs →
      fillSlots buf (idealSlots fl fs v) = fs.map (·.2) := by
  intro fs
  induction fs with
  | nil => intro v hdrop hlen; simp
  | cons f fs ih =>
    intro v hdrop hlen
    obtain ⟨b, bytes⟩ := f
    cases b with
    | true =>
      rw [encodeFieldsVar_cons_fixed] at hdrop
      rw [varTotal_cons_fixed] at hlen
      rw [idealSlots_cons_fixed, fillSlots_cons_fixed, List.map_cons,
        ih v hdrop hlen]
    | false =>
      rw [encodeFieldsVar_cons_var] at hdrop
      rw [varTotal_cons_var] at hlen
      have hend : ((slotOffsets (idealSlots fl fs (v + bytes.length))).head?).getD
          buf.length = fl + v + bytes.length := by
        rw [head_slotOffsets_ideal]
        by_cases hnv : numVar (layoutOfFields fs) = 0
        · rw [if_pos hnv, Option.getD_none, hlen,
            varTotal_eq_zero_of_numVar fs hnv]
          omega
        · rw [if_neg hnv, Option.getD_some]
          omega
      have hslice : (buf.drop (fl + v)).take (fl + v + bytes.length - (fl + v))
          = bytes := by
        have harith : fl + v + bytes.length - (fl + v) = bytes.length := by omega
        rw [harith, hdrop, List.take_left]
      have hdrop2 : buf.drop (fl + (v + bytes.length)) = encodeFieldsVar fs := by
        have harith : fl + (v + bytes.length) = fl + v + bytes.length := by omega
        rw [harith, ← List.drop_drop, hdrop, List.drop_left]
      have hlen2 : buf.length = fl + (v + bytes.length) + varTotal fs := by omega
      rw [idealSlots_cons_var, fillSlots_cons_var, hend, hslice, List.map_cons,
        ih (v + bytes.length) hdrop2 hlen2]

/-- Decoding slices an encoded container back into exactly its fields'
byte strings, provided the total size fits the 4-byte offset width. -/
theorem containerSlices_layout_encode (fields : List (Bool × List Byte))
    (h32 : fixedRegionLen (layoutOfFields fields) + varTotal fields < 2 ^ 32) :
    containerSlices (layoutOfFields fields) (containerEncode fields)
      = .ok (fields.map (·.2)) := by
  have hlen := containerEncode_length fields
  have hfixlen := encodeFieldsFix_length (fixedRegionLen (layoutOfFields fields)) fields 0
  have hdrop0 : (containerEncode fields).drop 0
      = encodeFieldsFix (fixedRegionLen (layoutOfFields fields)) fields 0
        ++ encodeFieldsVar fields := by
    rw [List.drop_zero, containerEncode]
  have hslots := readSlots_encode (fixedRegionLen (layoutOfFields fields))
    (containerEncode fields) fields 0 0 (encodeFieldsVar fields) hdrop0 (by omega)
  have hdropfl : (containerEncode fields).drop
      (fixedRegionLen (layoutOfFields fields) + 0) = encodeFieldsVar fields := by
    rw [Nat.add_zero, containerEncode]
    nth_rewrite 1 [← hfixlen]
    rw [List.drop_left]
  have hfill := fillSlots_ideal (fixedRegionLen (layoutOfFields fields))
    (containerEncode fields) fields 0 hdropfl (by omega)
  by_cases hnv : numVar (layoutOfFields fields) = 0
  · have hvt := varTotal_eq_zero_of_numVar fields hnv
    rw [containerSlices, if_pos hnv, if_pos (by omega), hslots, hfill]
  · rw [containerSlices, if_neg hnv, if_neg (by omega), hslots]
    have hord : offsetsOrdered (fixedRegionLen (layoutOfFields fields))
        (slotOffsets (idealSlots (fixedRegionLen (layoutOfFields fields)) fields 0))
          = true := by
      have hhead := head_slotOffsets_ideal (fixedRegionLen (layoutOfFields fields))
        fields 0
      rw [if_neg hnv] at hhead
      cases hoffs : slotOffsets
          (idealSlots (fixedRegionLen (layoutOfFields fields)) fields 0) with
      | nil => simp [hoffs] at hhead
      | cons o rest =>
        rw [hoffs] at hhead
        simp only [List.head?_cons, Option.some.injEq] at hhead
        have hmono := offsetsMono_ideal (fixedRegionLen (layoutOfFields fields))
          fields 0
        rw [hoffs] at hmono
        rw [offsetsOrdered, hmono, Bool.and_true, decide_eq_true_eq]
        omega
    rw [if_pos hord]
    have hbounds : (slotOffsets
        (idealSlots (fixedRegionLen (layoutOfFields fields)) fields 0)).all
          (fun o => decide (o ≤ (containerEncode fields).length)) = true := by
      rw [List.all_eq_true]
      intro o ho
      have := slotOffsets_ideal_bounds (fixedRegionLen (layoutOfFields fields))
        fields 0 o ho
      rw [decide_eq_true_eq]
      omega
    rw [if_pos hbounds, hfill]

/-- A static layout describes a field list when the flags agree and every
fixed-size field's declared width is its encoding's length. -/
def layoutMatches : List (Bool × Nat) → List (Bool × List Byte) → Prop
  | [], [] => True
  | g :: gs, f :: fs => g.1 = f.1 ∧ (g.1 = true → g.2 = f.2.length) ∧ layoutMatches gs fs
  | _, _ => False

theorem layoutMatches_self (fields : List (Bool × List Byte)) :
    layoutMatches (layoutOfFields fields) fields := by
  induction fields with
  | nil => trivial
  | cons f fs ih => exact ⟨rfl, fun _ => rfl, ih⟩

theorem fixedRegionLen_of_matches (lay : List (Bool × Nat))
    (fields : List (Bool × List Byte)) (hm : layoutMatches lay fields) :
    fixedRegionLen lay = fixedRegionLen (layoutOfFields fields) := by
  induction lay generalizing fields with
  | nil => cases fields with
    | nil => rfl
    | cons f fs => cases hm
  | cons g gs ih =>
    cases fields with
    | nil => cases hm
    | cons f fs =>
      obtain ⟨h1, h2, h3⟩ := hm
      obtain ⟨gb, gn⟩ := g
      obtain ⟨fb, fbytes⟩ := f
      simp only at h1 h2
      subst h1
      cases gb with
      | true =>
        rw [h2 rfl]
        rw [layoutOfFields_cons, fixedRegionLen_cons_fixed,
          fixedRegionLen_cons_fixed, ih fs h3]
      | false =>
        rw [layoutOfFields_cons]
        rw [show ((false, fbytes.length) : Bool × Nat)
          = (false, fbytes.length) from rfl]
        rw [fixedRegionLen_cons_var, fixedRegionLen_cons_var, ih fs h3]

theorem numVar_of_matches (lay : List (Bool × Nat))
    (fields : List (Bool × List Byte)) (hm : layoutMatches lay fields) :
    numVar lay = numVar (layoutOfFields fields) := by
  induction lay generalizing fields with
  | nil => cases fields with
    | nil => rfl
    | cons f fs => cases hm
  | cons g gs ih =>
    cases fields with
    | nil => cases hm
    | cons f fs =>
      obtain ⟨h1, h2, h3⟩ := hm
      obtain ⟨gb, gn⟩ := g
      obtain ⟨fb, fbytes⟩ := f
      simp only at h1
      subst h1
      cases gb with
      | true =>
        rw [layoutOfFields_cons, numVar_cons_fixed, numVar_cons_fixed, ih fs h3]
      | false =>
        rw [layoutOfFields_cons, numVar_cons_var, numVar_cons_var, ih fs h3]

theorem readSlots_of_matches (buf : List Byte) (lay : List (Bool × Nat))
    (fields : List (Bool × List Byte)) (hm : layoutMatches lay fields) :
    ∀ pos, readSlots buf lay pos = readSlots buf (layoutOfFields fields) pos := by
  induction lay generalizing fields with
  | nil => cases fields with
    | nil => intro pos; rfl
    | cons f fs => cases hm
  | cons g gs ih =>
    cases fields with
    | nil => cases hm
    | cons f fs =>
      obtain ⟨h1, h2, h3⟩ := hm
      obtain ⟨gb, gn⟩ := g
      obtain ⟨fb, fbytes⟩ := f
      simp only at h1 h2
      subst h1
      intro pos
      cases gb with
      | true =>
        rw [h2 rfl, layoutOfFields_cons, readSlots_cons_fixed,
          readSlots_cons_fixed, ih fs h3]
      | false =>
        rw [layoutOfFields_cons, readSlots_cons_var, readSlots_cons_var, ih fs h3]

theorem containerSlices_of_matches (lay : List (Bool × Nat))
    (fields : List (Bool × List Byte)) (hm : layoutMatches lay fields)
    (buf : List Byte) :
    containerSlices lay buf = containerSlices (layoutOfFields fields) buf := by
  rw [containerSlices, containerSlices, fixedRegionLen_of_matches lay fields hm,
    numVar_of_matches lay fields hm, readSlots_of_matches buf lay fields hm]

/-- Decode-slicing inverts encode for any layout that matches the fields. -/
theorem containerSlices_encode (lay : List (Bool × Nat))
    (fields : List (Bool × List Byte)) (hm : layoutMatches lay fields)
    (h32 : fixedRegionLen (layoutOfFields fields) + varTotal fields < 2 ^ 32) :
    containerSlices lay (containerEncode fields) = .ok (fields.map (·.2)) := by
  rw [containerSlices_of_matches lay fields hm,
    containerSlices_layout_encode fields h32]

@[simp] theorem except_bind_ok {α β : Type} (a : α)
    (f : α → Except DecodeError β) : (Except.ok a : Except DecodeError α).bind f = f a := rfl

@[simp] theorem except_bind_error {α β : Type} (e : DecodeError)
    (f : α → Except DecodeError β) :
    (Except.error e : Except DecodeError α).bind f = .error e := rfl

/-- Modelled from the spec: §4.2/§4.3 Case A encode — plain concatenation
of the element encodings in order. -/
def encodeFixedSeq {α : Type} (enc : α → List Byte) (l : List α) : List Byte :=
  (l.map enc).flatten

theorem encodeFixedSeq_nil {α : Type} (enc : α → List Byte) :
    encodeFixedSeq enc [] = [] := rfl

theorem encodeFixedSeq_cons {α : Type} (enc : α → List Byte) (a : α) (l : List α) :
    encodeFixedSeq enc (a :: l) = enc a ++ encodeFixedSeq enc l := by
  simp [encodeFixedSeq]

theorem encodeFixedSeq_length {α : Type} (enc : α → List Byte) (k : Nat)
    (l : List α) (h : ∀ a ∈ l, (enc a).length = k) :
    (encodeFixedSeq enc l).length = l.length * k := by
  induction l with
  | nil => simp [encodeFixedSeq]
  | cons a l ih =>
    rw [encodeFixedSeq_cons, List.length_append, List.length_cons,
      h a (List.mem_cons_self _ _), ih (fun b hb => h b (List.mem_cons_of_mem _ hb))]
    ring

/-- Split a buffer into consecutive chunks of `k` bytes (structural fuel
so that concrete decodes evaluate). -/
def chunksOfAux (k : Nat) : Nat → List Byte → List (List Byte)
  | 0, _ => []
  | _, [] => []
  | fuel + 1, b :: bs => ((b :: bs).take k) :: chunksOfAux k fuel ((b :: bs).drop k)

def chunksOf (k : Nat) (buf : List Byte) : List (List Byte) :=
  chunksOfAux k buf.length buf

theorem chunksOfAux_nil (k f : Nat) : chunksOfAux k f [] = [] := by
  cases f <;> rfl

theorem chunksOfAux_congr (k : Nat) (hk : 0 < k) :
    ∀ (f1 f2 : Nat) (buf : List Byte), buf.length ≤ f1 → buf.length ≤ f2 →
      chunksOfAux k f1 buf = chunksOfAux k f2 buf := by
  intro f1
  induction f1 with
  | zero =>
    intro f2 buf h1 h2
    have : buf = [] := List.length_eq_zero.mp (by omega)
    subst this
    rw [chunksOfAux_nil, chunksOfAux_nil]
  | succ f1 ih =>
    intro f2 buf h1 h2
    cases buf with
    | nil => rw [chunksOfAux_nil, chunksOfAux_nil]
    | cons b bs =>
      cases f2 with
      | zero => simp at h2
      | succ f2 =>
        show ((b :: bs).take k) :: chunksOfAux k f1 ((b :: bs).drop k)
          = ((b :: bs).take k) :: chunksOfAux k f2 ((b :: bs).drop k)
        have hd : ((b :: bs).drop k).length ≤ f1 := by
          rw [List.length_drop]
          simp only [List.length_cons] at h1 ⊢
          omega
        have hd2 : ((b :: bs).drop k).length ≤ f2 := by
          rw [List.length_drop]
          simp only [List.length_cons] at h2 ⊢
          omega
        rw [ih f2 _ hd hd2]

theorem chunksOf_append (k : Nat) (hk : 0 < k) (xs rest : List Byte)
    (hxs : xs.length = k) :
    chunksOf k (xs ++ rest) = xs :: chunksOf k rest := by
  cases xs with
  | nil => rw [List.length_nil] at hxs; omega
  | cons b bs =>
    have hlen : (b :: bs ++ rest).length = k + rest.length := by
      rw [List.length_append, hxs]
    have hpos : 0 < (b :: bs ++ rest).length := by simp
    rw [chunksOf]
    have hshape : (b :: bs ++ rest).length = (k - 1 + rest.length) + 1 := by omega
    rw [hshape]
    show ((b :: bs ++ rest).take k) :: chunksOfAux k (k - 1 + rest.length)
        ((b :: bs ++ rest).drop k) = (b :: bs) :: chunksOf k rest
    have htake : (b :: bs ++ rest).take k = b :: bs := by
      rw [← hxs, List.take_left]
    have hdrop : (b :: bs ++ rest).drop k = rest := by
      rw [← hxs, List.drop_left]
    rw [htake, hdrop, chunksOf]
    rw [chunksOfAux_congr k hk _ _ rest (by omega) (le_refl _)]

theorem chunksOf_flatten {α : Type} (enc : α → List Byte) (k : Nat) (hk : 0 < k)
    (l : List α) (hlen : ∀ a ∈ l, (enc a).length = k) :
    chunksOf k (encodeFixedSeq enc l) = l.map enc := by
  induction l with
  | nil => rfl
  | cons a l ih =>
    rw [encodeFixedSeq_cons,
      chunksOf_append k hk _ _ (hlen a (List.mem_cons_self _ _)),
      ih (fun b hb => hlen b (List.mem_cons_of_mem _ hb)), List.map_cons]

theorem chunksOf_spec (k : Nat) (hk : 0 < k) :
    ∀ (m : Nat) (buf : List Byte), buf.length = k * m →
      (chunksOf k buf).length = m ∧ ∀ c ∈ chunksOf k buf, c.length = k := by
  intro m
  induction m with
  | zero =>
    intro buf hbuf
    have : buf = [] := List.length_eq_zero.mp (by omega)
    subst this
    exact ⟨rfl, by intro c hc; simp [chunksOf, chunksOfAux] at hc⟩
  | succ m ih =>
    intro buf hbuf
    have hmul : k * (m + 1) = k * m + k := by ring
    have hge : k ≤ buf.length := by omega
    have hsplit := (List.take_append_drop k buf).symm
    have htakelen : (buf.take k).length = k := by
      rw [List.length_take]
      omega
    have hdroplen : (buf.drop k).length = k * m := by
      rw [List.length_drop]
      omega
    obtain ⟨ihl, ihm⟩ := ih (buf.drop k) hdroplen
    constructor
    · conv_lhs => rw [hsplit]
      rw [chunksOf_append k hk _ _ htakelen, List.length_cons, ihl]
    · intro c hc
      conv at hc => rw [hsplit]
      rw [chunksOf_append k hk _ _ htakelen, List.mem_cons] at hc
      rcases hc with h | h
      · rw [h, htakelen]
      · exact ihm c h

/-- Decode each slice of a list with the element decoder. -/
def decodeEach {α : Type} (dec : List Byte → Except DecodeError α) :
    List (List Byte) → Except DecodeError (List α)
  | [] => .ok []
  | s :: ss => (dec s).bind fun a => (decodeEach dec ss).bind fun l => .ok (a :: l)

theorem decodeEach_map_encode {α : Type} (enc : α → List Byte)
    (dec : List Byte → Except DecodeError α) (l : List α)
    (h : ∀ a ∈ l, dec (enc a) = .ok a) :
    decodeEach dec (l.map enc) = .ok l := by
  induction l with
  | nil => rfl
  | cons a l ih =>
    rw [List.map_cons, decodeEach, h a (List.mem_cons_self _ _), except_bind_ok,
      ih (fun b hb => h b (List.mem_cons_of_mem _ hb)), except_bind_ok]

theorem decodeEach_total {α : Type} (dec : List Byte → Except DecodeError α)
    (ss : List (List Byte)) (h : ∀ s ∈ ss, ∃ a, dec s = .ok a) :
    ∃ l : List α, decodeEach dec ss = .ok l ∧ l.length = ss.length := by
  induction ss with
  | nil => exact ⟨[], rfl, rfl⟩
  | cons s ss ih =>
    obtain ⟨a, ha⟩ := h s (List.mem_cons_self _ _)
    obtain ⟨l, hl, hlen⟩ := ih (fun t ht => h t (List.mem_cons_of_mem _ ht))
    refine ⟨a :: l, ?_, by simp [hlen]⟩
    rw [decodeEach, ha, except_bind_ok, hl, except_bind_ok]

/-- A `u64` value, the primitive integer type of the records. -/
abbrev Uint64 := {n : Nat // n < 2 ^ 64}

/-- Modelled from the spec: §4.1 — a u64 encodes as 8 little-endian bytes. -/
def encodeU64 (v : Uint64) : List Byte := encodeUintLE 8 v.val

/-- Modelled from the spec: §4.1 decode — consumes exactly 8 bytes, fails
with LengthMismatch otherwise. -/
def decodeU64 (buf : List Byte) : Except DecodeError Uint64 :=
  if h : buf.length = 8 then
    .ok ⟨uintValLE buf, by
      have hv := uintValLE_lt buf
      rw [h] at hv
      exact lt_of_lt_of_le hv (by norm_num)⟩
  else .error .lengthMismatch

theorem encodeU64_length (v : Uint64) : (encodeU64 v).length = 8 :=
  encodeUintLE_length 8 v.val

theorem decodeU64_encodeU64 (v : Uint64) : decodeU64 (encodeU64 v) = .ok v := by
  obtain ⟨n, hn⟩ := v
  rw [decodeU64, dif_pos (encodeU64_length ⟨n, hn⟩)]
  simp only [Except.ok.injEq, Subtype.mk.injEq, encodeU64, uintValLE_encodeUintLE]
  exact Nat.mod_eq_of_lt (lt_of_lt_of_le hn (by norm_num))

theorem decodeU64_total (buf : List Byte) (h : buf.length = 8) :
    ∃ u, decodeU64 buf = .ok u := by
  rw [decodeU64, dif_pos h]
  exact ⟨_, rfl⟩

/-- Modelled from the spec: a `u8` element encodes as itself. -/
def encodeByte (b : Byte) : List Byte := [b]

/-- Modelled from the spec: a `u8` element decodes from exactly one byte. -/
def decodeByte (buf : List Byte) : Except DecodeError Byte :=
  match buf with
  | [b] => .ok b
  | _ => .error .lengthMismatch

theorem encodeByte_length (b : Byte) : (encodeByte b).length = 1 := rfl

theorem decodeByte_encodeByte (b : Byte) : decodeByte (encodeByte b) = .ok b := rfl

theorem decodeByte_total (buf : List Byte) (h : buf.length = 1) :
    ∃ b, decodeByte buf = .ok b := by
  cases buf with
  | nil => simp at h
  | cons b bs =>
    cases bs with
    | nil => exact ⟨b, rfl⟩
    | cons c cs => simp at h

/-- The in-memory `FixedVector` type of the repository: exactly `n`
elements (invariant from §3 of the spec). -/
abbrev FixedVector (α : Type) (n : Nat) := {l : List α // l.length = n}

/-- The in-memory `VariableList` type of the repository: at most `maxN`
elements (invariant from §3 of the spec). -/
abbrev VariableList (α : Type) (maxN : Nat) := {l : List α // l.length ≤ maxN}

/-- Modelled from the spec: §4.2 encode — concatenate the element
encodings in declared order. -/
def encodeFixedVector {α : Type} {n : Nat} (enc : α → List Byte)
    (v : FixedVector α n) : List Byte := encodeFixedSeq enc v.val

/-- Modelled from the spec: §4.2 decode — the buffer length must equal
exactly `n` times the element size; split into `n` chunks and decode
each; LengthMismatch otherwise. -/
def decodeFixedVector {α : Type} (dec : List Byte → Except DecodeError α)
    (elemLen n : Nat) (buf : List Byte) : Except DecodeError (FixedVector α n) :=
  if buf.length = n * elemLen then
    (decodeEach dec (chunksOf elemLen buf)).bind fun l =>
      if h : l.length = n then .ok ⟨l, h⟩ else .error .lengthMismatch
  else .error .lengthMismatch

theorem decodeFixedVector_encode {α : Type} (enc : α → List Byte)
    (dec : List Byte → Except DecodeError α) (elemLen n : Nat) (hk : 0 < elemLen)
    (v : FixedVector α n)
    (hlen : ∀ a ∈ v.val, (enc a).length = elemLen)
    (hdec : ∀ a ∈ v.val, dec (enc a) = .ok a) :
    decodeFixedVector dec elemLen n (encodeFixedVector enc v) = .ok v := by
  obtain ⟨l, hl⟩ := v
  have hblen : (encodeFixedVector enc ⟨l, hl⟩).length = n * elemLen := by
    rw [encodeFixedVector, encodeFixedSeq_length enc elemLen l hlen, hl]
  rw [decodeFixedVector, if_pos hblen, encodeFixedVector,
    chunksOf_flatten enc elemLen hk l hlen, decodeEach_map_encode enc dec l hdec,
    except_bind_ok, dif_pos hl]

/-- Modelled from the spec: §4.3 Case A encode — a pure concatenation of
element encodings, no offset table. -/
def encodeBoundedFixedList {α : Type} {maxN : Nat} (enc : α → List Byte)
    (v : VariableList α maxN) : List Byte := encodeFixedSeq enc v.val

/-- Modelled from the spec: §4.3 Case A decode — the buffer length must
be an exact multiple of the element size (LengthMismatch otherwise);
`count = length / element size`; InvalidBoundedLength when `count > Max`,
checked before the elements are materialised; never truncates. -/
def decodeBoundedFixedList {α : Type} (dec : List Byte → Except DecodeError α)
    (elemLen maxN : Nat) (buf : List Byte) :
    Except DecodeError (VariableList α maxN) :=
  if buf.length % elemLen = 0 then
    if maxN < buf.length / elemLen then .error .invalidBoundedLength
    else (decodeEach dec (chunksOf elemLen buf)).bind fun l =>
      if h : l.length ≤ maxN then .ok ⟨l, h⟩ else .error .invalidBoundedLength
  else .error .lengthMismatch

theorem decodeBoundedFixedList_encode {α : Type} (enc : α → List Byte)
    (dec : List Byte → Except DecodeError α) (elemLen maxN : Nat)
    (hk : 0 < elemLen) (v : VariableList α maxN)
    (hlen : ∀ a ∈ v.val, (enc a).length = elemLen)
    (hdec : ∀ a ∈ v.val, dec (enc a) = .ok a) :
    decodeBoundedFixedList dec elemLen maxN (encodeBoundedFixedList enc v)
      = .ok v := by
  obtain ⟨l, hl⟩ := v
  have hblen : (encodeBoundedFixedList enc ⟨l, hl⟩).length = l.length * elemLen :=
    encodeFixedSeq_length enc elemLen l hlen
  have hmod : (encodeBoundedFixedList enc ⟨l, hl⟩).length % elemLen = 0 := by
    rw [hblen]; exact Nat.mul_mod_left _ _
  have hdiv : (encodeBoundedFixedList enc ⟨l, hl⟩).length / elemLen = l.length := by
    rw [hblen]; exact Nat.mul_div_cancel _ hk
  rw [decodeBoundedFixedList, if_pos hmod, hdiv, if_neg (by omega),
    encodeBoundedFixedList, chunksOf_flatten enc elemLen hk l hlen,
    decodeEach_map_encode enc dec l hdec, except_bind_ok, dif_pos hl]

/-- Modelled from the spec: §4.3 Case B encode — a list of variable-size
elements behaves like an anonymous container of `count` variable fields. -/
def encodeVarList {α : Type} (enc : α → List Byte) (l : List α) : List Byte :=
  containerEncode (l.map fun a => (false, enc a))

/-- Modelled from the spec: §4.3 Case B decode — the first offset value
marks the boundary between offset table and payload, hence gives the
count; the bound is checked before any element is materialised; offsets
are validated and the elements decoded from their slices. -/
def decodeVarList {α : Type} (dec : List Byte → Except DecodeError α)
    (maxN : Nat) (buf : List Byte) : Except DecodeError (VariableList α maxN) :=
  if buf.length = 0 then .ok ⟨[], Nat.zero_le _⟩
  else if readUint32 buf 0 % 4 = 0 ∧ readUint32 buf 0 ≠ 0 then
    if maxN < readUint32 buf 0 / 4 then .error .invalidBoundedLength
    else
      (containerSlices (List.replicate (readUint32 buf 0 / 4) (false, 0)) buf).bind
        fun ss => (decodeEach dec ss).bind fun l =>
          if h : l.length ≤ maxN then .ok ⟨l, h⟩ else .error .invalidBoundedLength
  else .error .lengthMismatch

theorem fixedRegionLen_allVar {α : Type} (enc : α → List Byte) (l : List α) :
    fixedRegionLen (layoutOfFields (l.map fun a => (false, enc a))) = 4 * l.length := by
  induction l with
  | nil => simp
  | cons a l ih =>
    rw [List.map_cons, layoutOfFields_cons]
    rw [show ((((false, enc a) : Bool × List Byte).1,
      (enc a).length)) = (false, (enc a).length) from rfl]
    rw [fixedRegionLen_cons_var, ih, List.length_cons]
    ring

theorem layoutMatches_replicate {α : Type} (enc : α → List Byte) (l : List α) :
    layoutMatches (List.replicate l.length (false, 0))
      (l.map fun a => (false, enc a)) := by
  induction l with
  | nil => trivial
  | cons a l ih =>
    rw [List.length_cons, List.replicate_succ, List.map_cons]
    exact ⟨rfl, fun h => by simp at h, ih⟩

theorem elem_length_le_encodeVarList {α : Type} (enc : α → List Byte)
    (l : List α) (a : α) (ha : a ∈ l) :
    (enc a).length ≤ (encodeVarList enc l).length := by
  have hmem : ((false, enc a) : Bool × List Byte) ∈ l.map fun a => (false, enc a) :=
    List.mem_map_of_mem _ ha
  have := field_length_le (l.map fun a => (false, enc a)) (false, enc a) hmem
  rw [encodeVarList, containerEncode_length]
  exact this

theorem readUint32_containerEncode_var (bytes : List Byte)
    (fs : List (Bool × List Byte))
    (h32 : fixedRegionLen (layoutOfFields ((false, bytes) :: fs))
        + varTotal ((false, bytes) :: fs) < 2 ^ 32) :
    readUint32 (containerEncode ((false, bytes) :: fs)) 0
      = fixedRegionLen (layoutOfFields ((false, bytes) :: fs)) := by
  rw [containerEncode, encodeFieldsFix_cons_var, Nat.add_zero, readUint32,
    List.drop_zero, List.append_assoc]
  set u : List Byte := encodeUintLE 4
    (fixedRegionLen (layoutOfFields ((false, bytes) :: fs))) with hu
  have h4 : u.length = 4 := encodeUintLE_length 4 _
  rw [← h4, List.take_left, hu, uintValLE_encodeUintLE]
  have h256 : (256 : Nat) ^ 4 = 2 ^ 32 := by norm_num
  rw [h256]
  exact Nat.mod_eq_of_lt (by omega)

theorem decodeVarList_encode_list {α : Type} (enc : α → List Byte)
    (dec : List Byte → Except DecodeError α) (maxN : Nat) (l : List α)
    (hl : l.length ≤ maxN)
    (hdec : ∀ a ∈ l, dec (enc a) = .ok a)
    (h32 : (encodeVarList enc l).length < 2 ^ 32) :
    decodeVarList dec maxN (encodeVarList enc l) = .ok ⟨l, hl⟩ := by
  cases l with
  | nil =>
    rw [show encodeVarList enc [] = [] from rfl, decodeVarList,
      if_pos List.length_nil]
  | cons a0 l0 =>
    have hEnc : encodeVarList enc (a0 :: l0)
        = containerEncode ((false, enc a0) :: l0.map fun a => (false, enc a)) := by
      rw [encodeVarList, List.map_cons]
    have hlfl : fixedRegionLen (layoutOfFields
        ((false, enc a0) :: l0.map fun a => (false, enc a)))
          = 4 * (l0.length + 1) := by
      have h := fixedRegionLen_allVar enc (a0 :: l0)
      rw [List.map_cons, List.length_cons] at h
      exact h
    have hlen := containerEncode_length
      ((false, enc a0) :: l0.map fun a => (false, enc a))
    rw [hEnc] at h32
    have h32' : fixedRegionLen (layoutOfFields
        ((false, enc a0) :: l0.map fun a => (false, enc a)))
          + varTotal ((false, enc a0) :: l0.map fun a => (false, enc a))
            < 2 ^ 32 := by
      omega
    have hfirst := readUint32_containerEncode_var (enc a0)
      (l0.map fun a => (false, enc a)) h32'
    rw [hlfl] at hfirst
    have hne : ¬ (containerEncode
        ((false, enc a0) :: l0.map fun a => (false, enc a))).length = 0 := by
      rw [hlen, hlfl]
      omega
    have hmatch := layoutMatches_replicate enc (a0 :: l0)
    rw [List.map_cons, List.length_cons] at hmatch
    rw [hEnc, decodeVarList, if_neg hne, hfirst]
    have hdiv : 4 * (l0.length + 1) / 4 = l0.length + 1 :=
      Nat.mul_div_cancel_left _ (by decide)
    rw [hdiv]
    rw [if_pos ⟨Nat.mul_mod_right 4 _, by omega⟩]
    rw [List.length_cons] at hl
    rw [if_neg (by omega)]
    rw [containerSlices_encode (List.replicate (l0.length + 1) (false, 0))
      ((false, enc a0) :: l0.map fun a => (false, enc a)) hmatch h32',
      except_bind_ok]
    have hmapmap : (((false, enc a0) :: l0.map fun a => (false, enc a)).map (·.2))
        = (a0 :: l0).map enc := by
      rw [List.map_cons, List.map_map, List.map_cons]
      rfl
    rw [hmapmap, decodeEach_map_encode enc dec _ hdec, except_bind_ok,
      dif_pos (by rw [List.length_cons]; exact hl)]

/-- The in-memory `BitVector` type: exactly `n` bits (invariant from §3). -/
abbrev BitVector (n : Nat) := {bs : List Bool // bs.length = n}

/-- The in-memory `BitList` type: at most `maxN` bits (invariant from §3). -/
abbrev BitList (maxN : Nat) := {bs : List Bool // bs.length ≤ maxN}

/-- Modelled from the spec: §4.4 encode — pack the `n` bits into
ceil(n/8) bytes, unused trailing bits zero. -/
def encodeBitVector {n : Nat} (v : BitVector n) : List Byte := packBits v.val

/-- True when every bit of the buffer at position `n` or above is zero. -/
def paddingClear (n : Nat) (buf : List Byte) : Bool :=
  (List.range (8 * buf.length)).all fun i => decide (i < n) || !bufBit buf i

/-- Modelled from the spec: §4.4 decode — requires a buffer of exactly
ceil(n/8) bytes; any nonzero unused trailing bit is InvalidPadding. -/
def decodeBitVector (n : Nat) (buf : List Byte) :
    Except DecodeError (BitVector n) :=
  if buf.length = (n + 7) / 8 then
    if paddingClear n buf then .ok ⟨unpackBits buf n, unpackBits_length buf n⟩
    else .error .invalidPadding
  else .error .lengthMismatch

theorem encodeBitVector_length {n : Nat} (v : BitVector n) :
    (encodeBitVector v).length = (n + 7) / 8 := by
  rw [encodeBitVector, packBits_length, v.property]

theorem paddingClear_packBits (bs : List Bool) :
    paddingClear bs.length (packBits bs) = true := by
  rw [paddingClear, List.all_eq_true]
  intro i _
  by_cases h : i < bs.length
  · simp [h]
  · have : bufBit (packBits bs) i = false := by
      rw [bufBit_packBits, getD_eq_default_of_le _ _ _ (by omega)]
    simp [this]

theorem decodeBitVector_encode {n : Nat} (v : BitVector n) :
    decodeBitVector n (encodeBitVector v) = .ok v := by
  obtain ⟨bs, hbs⟩ := v
  have hpad := paddingClear_packBits bs
  rw [hbs] at hpad
  rw [decodeBitVector, if_pos (encodeBitVector_length ⟨bs, hbs⟩),
    show encodeBitVector ⟨bs, hbs⟩ = packBits bs from rfl, if_pos hpad]
  simp only [Except.ok.injEq, Subtype.mk.injEq]
  rw [← hbs, unpackBits_packBits]

theorem paddingClear_false_of_bit (n : Nat) (buf : List Byte) (i : Nat)
    (h1 : n ≤ i) (h2 : i < 8 * buf.length) (h3 : bufBit buf i = true) :
    paddingClear n buf = false := by
  by_contra h
  have hall := List.all_eq_true.mp (Bool.of_not_eq_false h) i (List.mem_range.mpr h2)
  simp only [h3, Bool.not_true, Bool.or_false, decide_eq_true_eq] at hall
  omega

/-- Modelled from the spec: §4.5 encode — pack the data bits as in a bit
vector, set exactly one additional bit immediately after the last data
bit (the length delimiter) and zero-pad the remainder of the final byte. -/
def encodeBitList {maxN : Nat} (v : BitList maxN) : List Byte :=
  packBits (v.val ++ [true])

/-- Position of the highest set bit strictly below `n`, scanning down. -/
def highestBitBelow (buf : List Byte) : Nat → Option Nat
  | 0 => none
  | n + 1 => if bufBit buf n then some n else highestBitBelow buf n

/-- Modelled from the spec: §4.5 decode — scan the buffer from its
highest-addressed bit downward for the first set bit. -/
def highestSetBit (buf : List Byte) : Option Nat :=
  highestBitBelow buf (8 * buf.length)

/-- True when some bit strictly above position `p` is set in the buffer. -/
def bitAbove (buf : List Byte) (p : Nat) : Bool :=
  (List.range (8 * buf.length)).any fun i => decide (p < i) && bufBit buf i

/-- Modelled from the spec: §4.5 decode — the delimiter's position is the
data length; all bits above it must be zero (ExtraBitsAfterDelimiter);
MissingDelimiter when no bit is set anywhere; InvalidBoundedLength when
the derived length exceeds the maximum. -/
def decodeBitList (maxN : Nat) (buf : List Byte) :
    Except DecodeError (BitList maxN) :=
  match highestSetBit buf with
  | none => .error .missingDelimiter
  | some p =>
    if bitAbove buf p then .error .extraBitsAfterDelimiter
    else if h : p ≤ maxN then
      .ok ⟨unpackBits buf p, by rw [unpackBits_length]; exact h⟩
    else .error .invalidBoundedLength

theorem highestBitBelow_some (buf : List Byte) :
    ∀ (n p : Nat), highestBitBelow buf n = some p →
      bufBit buf p = true ∧ p < n ∧ ∀ i, p < i → i < n → bufBit buf i = false := by
  intro n
  induction n with
  | zero => intro p h; cases h
  | succ n ih =>
    intro p h
    rw [highestBitBelow] at h
    by_cases hb : bufBit buf n = true
    · rw [if_pos hb] at h
      cases h
      exact ⟨hb, Nat.lt_succ_self n, fun i h1 h2 => by omega⟩
    · rw [if_neg hb] at h
      obtain ⟨hp, hlt, habove⟩ := ih p h
      refine ⟨hp, by omega, fun i h1 h2 => ?_⟩
      by_cases hi : i = n
      · rw [hi]; exact Bool.eq_false_iff.mpr hb
      · exact habove i h1 (by omega)

theorem highestBitBelow_none (buf : List Byte) :
    ∀ (n : Nat), highestBitBelow buf n = none →
      ∀ i, i < n → bufBit buf i = false := by
  intro n
  induction n with
  | zero => intro h i hi; omega
  | succ n ih =>
    intro h i hi
    rw [highestBitBelow] at h
    by_cases hb : bufBit buf n = true
    · rw [if_pos hb] at h; cases h
    · rw [if_neg hb] at h
      by_cases hin : i = n
      · rw [hin]; exact Bool.eq_false_iff.mpr hb
      · exact ih h i (by omega)

theorem highestBitBelow_intro (buf : List Byte) :
    ∀ (n p : Nat), p < n → bufBit buf p = true →
      (∀ i, p < i → i < n → bufBit buf i = false) →
      highestBitBelow buf n = some p := by
  intro n
  induction n with
  | zero => intro p h; omega
  | succ n ih =>
    intro p hlt hp habove
    rw [highestBitBelow]
    by_cases hpn : p = n
    · rw [hpn] at hp
      rw [if_pos hp, hpn]
    · have hn : bufBit buf n = false := habove n (by omega) (Nat.lt_succ_self n)
      rw [if_neg (by rw [hn]; simp)]
      exact ih p (by omega) hp (fun i h1 h2 => habove i h1 (by omega))

theorem bitAbove_eq_false_of_highest (buf : List Byte) (p : Nat)
    (h : highestSetBit buf = some p) : bitAbove buf p = false := by
  obtain ⟨_, _, habove⟩ := highestBitBelow_some buf _ p h
  rw [bitAbove, List.any_eq_false]
  intro i hi
  rw [List.mem_range] at hi
  by_cases hpi : p < i
  · rw [habove i hpi hi]
    simp
  · simp [hpi]

theorem decodeBitList_eq_of_none (maxN : Nat) (buf : List Byte)
    (h : highestSetBit buf = none) :
    decodeBitList maxN buf = .error .missingDelimiter := by
  rw [decodeBitList, h]

theorem decodeBitList_eq_of_highest (maxN : Nat) (buf : List Byte) (p : Nat)
    (h : highestSetBit buf = some p) :
    decodeBitList maxN buf
      = if bitAbove buf p then .error .extraBitsAfterDelimiter
        else if hp : p ≤ maxN then
          .ok ⟨unpackBits buf p, by rw [unpackBits_length]; exact hp⟩
        else .error .invalidBoundedLength := by
  rw [decodeBitList, h]

theorem encodeBitList_length {maxN : Nat} (v : BitList maxN) :
    (encodeBitList v).length = v.val.length / 8 + 1 := by
  rw [encodeBitList, packBits_length, List.length_append, List.length_singleton]
  have harith : v.val.length + 1 + 7 = v.val.length + 8 := by omega
  rw [harith]
  exact Nat.add_div_right _ (by decide)

theorem highestSetBit_encodeBitList {maxN : Nat} (v : BitList maxN) :
    highestSetBit (encodeBitList v) = some v.val.length := by
  obtain ⟨bs, hbs⟩ := v
  simp only [show (⟨bs, hbs⟩ : BitList maxN).val = bs from rfl,
    show encodeBitList (⟨bs, hbs⟩ : BitList maxN) = packBits (bs ++ [true]) from rfl]
  have hlen1 : (bs ++ [true]).length = bs.length + 1 := by simp
  have henclen : (packBits (bs ++ [true])).length = (bs.length + 1 + 7) / 8 := by
    rw [packBits_length, hlen1]
  rw [highestSetBit]
  apply highestBitBelow_intro
  · rw [henclen]
    have := length_le_mul_ceilDiv (bs.length + 1)
    omega
  · rw [bufBit_packBits, List.getD_eq_getElem?_getD,
      List.getElem?_append_right (le_refl _)]
    simp
  · intro i h1 h2
    rw [bufBit_packBits, getD_eq_default_of_le _ _ _ (by rw [hlen1]; omega)]

theorem decodeBitList_encode {maxN : Nat} (v : BitList maxN) :
    decodeBitList maxN (encodeBitList v) = .ok v := by
  obtain ⟨bs, hbs⟩ := v
  have hhigh := highestSetBit_encodeBitList (⟨bs, hbs⟩ : BitList maxN)
  rw [show (⟨bs, hbs⟩ : BitList maxN).val = bs from rfl] at hhigh
  rw [decodeBitList_eq_of_highest maxN _ bs.length hhigh,
    if_neg (by rw [bitAbove_eq_false_of_highest _ _ hhigh]; simp), dif_pos hbs]
  simp only [Except.ok.injEq, Subtype.mk.injEq]
  rw [encodeBitList, show (⟨bs, hbs⟩ : BitList maxN).val = bs from rfl, unpackBits]
  have hcong : ∀ i ∈ List.range bs.length,
      bufBit (packBits (bs ++ [true])) i = bs.getD i false := by
    intro i hi
    rw [List.mem_range] at hi
    rw [bufBit_packBits, List.getD_eq_getElem?_getD, List.getElem?_append,
      if_pos hi, ← List.getD_eq_getElem?_getD]
  rw [List.map_congr_left hcong, map_range_getD]

theorem highestSetBit_allZero (buf : List Byte)
    (h : buf.all (· = (0 : Byte)) = true) : highestSetBit buf = none := by
  rw [highestSetBit]
  cases hh : highestBitBelow buf (8 * buf.length) with
  | none => rfl
  | some p =>
    obtain ⟨hp, hlt, _⟩ := highestBitBelow_some buf _ p hh
    have hbyte : buf.getD (p / 8) 0 = 0 := by
      rcases hg : buf[p / 8]? with _ | b
      · rw [List.getD_eq_getElem?_getD, hg]; rfl
      · have hmem : b ∈ buf := List.getElem?_mem hg
        have hb0 := List.all_eq_true.mp h b hmem
        rw [List.getD_eq_getElem?_getD, hg]
        simpa using hb0
    rw [bufBit, hbyte] at hp
    simp [Nat.zero_testBit] at hp

theorem decodeBitList_allZero (maxN : Nat) (buf : List Byte)
    (h : buf.all (· = (0 : Byte)) = true) :
    decodeBitList maxN buf = .error .missingDelimiter :=
  decodeBitList_eq_of_none maxN buf (highestSetBit_allZero buf h)

theorem decodeBitList_extra_iff (maxN : Nat) (buf : List Byte) :
    decodeBitList maxN buf = .error .extraBitsAfterDelimiter ↔
      ∃ p, highestSetBit buf = some p ∧ bitAbove buf p = true := by
  constructor
  · intro h
    cases hh : highestSetBit buf with
    | none =>
      rw [decodeBitList_eq_of_none maxN buf hh] at h
      simp at h
    | some p =>
      rw [decodeBitList_eq_of_highest maxN buf p hh] at h
      by_cases hb : bitAbove buf p = true
      · exact ⟨p, rfl, hb⟩
      · rw [if_neg (by rw [Bool.not_eq_true] at hb; rw [hb]; simp)] at h
        split at h <;> simp at h
  · rintro ⟨p, hh, hb⟩
    exfalso
    rw [bitAbove_eq_false_of_highest buf p hh] at hb
    cases hb

theorem decodeBitList_too_long (maxN : Nat) (buf : List Byte) (p : Nat)
    (hh : highestSetBit buf = some p) (hgt : maxN < p) :
    decodeBitList maxN buf = .error .invalidBoundedLength := by
  rw [decodeBitList_eq_of_highest maxN buf p hh,
    if_neg (by rw [bitAbove_eq_false_of_highest buf p hh]; simp),
    dif_neg (by omega)]

/-- `ByteVector<N>` elements: encode a byte vector by concatenating its
bytes (§4.2 with `u8` elements). -/
def encodeBytesFV {n : Nat} (v : FixedVector Byte n) : List Byte :=
  encodeFixedVector encodeByte v

def decodeBytesFV (n : Nat) (buf : List Byte) :
    Except DecodeError (FixedVector Byte n) :=
  decodeFixedVector decodeByte 1 n buf

theorem encodeBytesFV_length {n : Nat} (v : FixedVector Byte n) :
    (encodeBytesFV v).length = n := by
  rw [encodeBytesFV, encodeFixedVector,
    encodeFixedSeq_length encodeByte 1 _ (fun a _ => rfl), v.property]
  omega

theorem decodeBytesFV_encode {n : Nat} (v : FixedVector Byte n) :
    decodeBytesFV n (encodeBytesFV v) = .ok v :=
  decodeFixedVector_encode _ _ 1 n (by decide) v (fun a _ => rfl)
    (fun a _ => rfl)

/-- Type aliases from `src/beacon_block.rs`. -/
abbrev ByteVector (n : Nat) := FixedVector Byte n

abbrev ByteList (maxN : Nat) := VariableList Byte maxN

abbrev SignatureBytes := ByteVector 96

abbrev PublicKeyBytes := ByteVector 48

abbrev H160 := ByteVector 20

abbrev H256 := ByteVector 32

abbrev U256 := FixedVector Uint64 4

def encodeU256 (v : U256) : List Byte := encodeFixedVector encodeU64 v

def decodeU256 (buf : List Byte) : Except DecodeError U256 :=
  decodeFixedVector decodeU64 8 4 buf

theorem encodeU256_length (v : U256) : (encodeU256 v).length = 32 := by
  rw [encodeU256, encodeFixedVector,
    encodeFixedSeq_length encodeU64 8 _ (fun a _ => encodeU64_length a), v.property]

theorem decodeU256_encode (v : U256) : decodeU256 (encodeU256 v) = .ok v :=
  decodeFixedVector_encode _ _ 8 4 (by decide) v (fun a _ => encodeU64_length a)
    (fun a _ => decodeU64_encodeU64 a)

def encodeByteList {maxN : Nat} (v : ByteList maxN) : List Byte :=
  encodeBoundedFixedList encodeByte v

def decodeByteList (maxN : Nat) (buf : List Byte) :
    Except DecodeError (ByteList maxN) :=
  decodeBoundedFixedList decodeByte 1 maxN buf

theorem decodeByteList_encode {maxN : Nat} (v : ByteList maxN) :
    decodeByteList maxN (encodeByteList v) = .ok v :=
  decodeBoundedFixedList_encode _ _ 1 maxN (by decide) v (fun a _ => rfl)
    (fun a _ => rfl)

def encodeU64List {maxN : Nat} (v : VariableList Uint64 maxN) : List Byte :=
  encodeBoundedFixedList encodeU64 v

def decodeU64List (maxN : Nat) (buf : List Byte) :
    Except DecodeError (VariableList Uint64 maxN) :=
  decodeBoundedFixedList decodeU64 8 maxN buf

theorem decodeU64List_encode {maxN : Nat} (v : VariableList Uint64 maxN) :
    decodeU64List maxN (encodeU64List v) = .ok v :=
  decodeBoundedFixedList_encode _ _ 8 maxN (by decide) v
    (fun a _ => encodeU64_length a) (fun a _ => decodeU64_encodeU64 a)

theorem field_length_lt_of_encode (fields : List (Bool × List Byte))
    (f : Bool × List Byte) (hf : f ∈ fields)
    (h32 : (containerEncode fields).length < 2 ^ 32) : f.2.length < 2 ^ 32 := by
  have h1 := field_length_le fields f hf
  rw [containerEncode_length] at h32
  omega

/-- `Checkpoint` from `src/beacon_block.rs`. -/
structure Checkpoint where
  epoch : Uint64
  root : H256
  deriving DecidableEq

def checkpointFields (v : Checkpoint) : List (Bool × List Byte) :=
  [(true, encodeU64 v.epoch), (true, encodeBytesFV v.root)]

def checkpointLayout : List (Bool × Nat) := [(true, 8), (true, 32)]

def encodeCheckpoint (v : Checkpoint) : List Byte :=
  containerEncode (checkpointFields v)

def decodeCheckpoint (buf : List Byte) : Except DecodeError Checkpoint :=
  (containerSlices checkpointLayout buf).bind fun ss =>
    (decodeU64 (ss.getD 0 [])).bind fun epoch =>
    (decodeBytesFV 32 (ss.getD 1 [])).bind fun root =>
    .ok ⟨epoch, root⟩

theorem layoutMatches_checkpoint (v : Checkpoint) :
    layoutMatches checkpointLayout (checkpointFields v) :=
  ⟨rfl, fun _ => (encodeU64_length v.epoch).symm,
    rfl, fun _ => (encodeBytesFV_length v.root).symm, trivial⟩

theorem encodeCheckpoint_length (v : Checkpoint) :
    (encodeCheckpoint v).length = 40 := by
  simp [encodeCheckpoint, containerEncode_length, checkpointFields,
    fixedRegionLen, layoutOfFields, slotLen, varTotal, encodeU64_length,
    encodeBytesFV_length]

theorem decodeCheckpoint_encode (v : Checkpoint) :
    decodeCheckpoint (encodeCheckpoint v) = .ok v := by
  rw [encodeCheckpoint, decodeCheckpoint,
    containerSlices_encode checkpointLayout (checkpointFields v)
      (layoutMatches_checkpoint v)
      (by
        have h := encodeCheckpoint_length v
        rw [encodeCheckpoint, containerEncode_length] at h
        omega),
    except_bind_ok]
  simp only [checkpointFields, List.map_cons, List.map_nil,
    List.getD_cons_zero, List.getD_cons_succ]
  rw [decodeU64_encodeU64, except_bind_ok, decodeBytesFV_encode, except_bind_ok]

theorem encodeBitVector512_length (v : BitVector 512) :
    (encodeBitVector v).length = 64 := encodeBitVector_length v

/-- `Deposit.proof`: a `FixedVector<H256, 32>` (§4.2 with 32-byte
elements). -/
def encodeProofVec (v : FixedVector H256 32) : List Byte :=
  encodeFixedVector encodeBytesFV v

def decodeProofVec (buf : List Byte) : Except DecodeError (FixedVector H256 32) :=
  decodeFixedVector (decodeBytesFV 32) 32 32 buf

theorem encodeProofVec_length (v : FixedVector H256 32) :
    (encodeProofVec v).length = 1024 := by
  rw [encodeProofVec, encodeFixedVector,
    encodeFixedSeq_length encodeBytesFV 32 _ (fun a _ => encodeBytesFV_length a),
    v.property]

theorem decodeProofVec_encode (v : FixedVector H256 32) :
    decodeProofVec (encodeProofVec v) = .ok v :=
  decodeFixedVector_encode _ _ 32 32 (by decide) v
    (fun a _ => encodeBytesFV_length a) (fun a _ => decodeBytesFV_encode a)
/-- `Eth1Data` from `src/beacon_block.rs`. -/
structure Eth1Data where
  deposit_root : H256
  deposit_count : Uint64
  block_hash : H256
  deriving DecidableEq

def eth1DataFields (v : Eth1Data) : List (Bool × List Byte) :=
  [(true, encodeBytesFV v.deposit_root), (true, encodeU64 v.deposit_count), (true, encodeBytesFV v.block_hash)]

def eth1DataLayout : List (Bool × Nat) := [(true, 32), (true, 8), (true, 32)]

def encodeEth1Data (v : Eth1Data) : List Byte :=
  containerEncode (eth1DataFields v)

def decodeEth1Data (buf : List Byte) : Except DecodeError Eth1Data :=
  (containerSlices eth1DataLayout buf).bind fun ss =>
    (decodeBytesFV 32 (ss.getD 0 [])).bind fun x0 =>
    (decodeU64 (ss.getD 1 [])).bind fun x1 =>
    (decodeBytesFV 32 (ss.getD 2 [])).bind fun x2 =>
    .ok ⟨x0, x1, x2⟩

theorem layoutMatches_eth1Data (v : Eth1Data) :
    layoutMatches eth1DataLayout (eth1DataFields v) :=
  ⟨rfl,
    fun _ => (encodeBytesFV_length v.deposit_root).symm,
    rfl,
    fun _ => (encodeU64_length v.deposit_count).symm,
    rfl,
    fun _ => (encodeBytesFV_length v.block_hash).symm,
    trivial⟩

theorem encodeEth1Data_length (v : Eth1Data) :
    (encodeEth1Data v).length = 72 := by
  simp [encodeEth1Data, containerEncode_length, eth1DataFields,
    fixedRegionLen, layoutOfFields, slotLen, varTotal,
    encodeBytesFV_length, encodeU64_length]

theorem decodeEth1Data_encode (v : Eth1Data) :
    decodeEth1Data (encodeEth1Data v) = .ok v := by
  rw [encodeEth1Data, decodeEth1Data,
    containerSlices_encode eth1DataLayout (eth1DataFields v)
      (layoutMatches_eth1Data v)
      (by
        have h := encodeEth1Data_length v
        rw [encodeEth1Data, containerEncode_length] at h
        omega),
    except_bind_ok]
  simp only [eth1DataFields, List.map_cons, List.map_nil,
    List.getD_cons_zero, List.getD_cons_succ]
  rw [decodeBytesFV_encode, except_bind_ok, decodeU64_encodeU64, except_bind_ok, decodeBytesFV_encode, except_bind_ok]

/-- `BeaconBlockHeader` from `src/beacon_block.rs`. -/
structure BeaconBlockHeader where
  slot : Uint64
  proposer_index : Uint64
  parent_root : H256
  state_root : H256
  body_root : H256
  deriving DecidableEq

def beaconBlockHeaderFields (v : BeaconBlockHeader) : List (Bool × List Byte) :=
  [(true, encodeU64 v.slot), (true, encodeU64 v.proposer_index), (true, encodeBytesFV v.parent_root), (true, encodeBytesFV v.state_root), (true, encodeBytesFV v.body_root)]

def beaconBlockHeaderLayout : List (Bool × Nat) := [(true, 8), (true, 8), (true, 32), (true, 32), (true, 32)]

def encodeBeaconBlockHeader (v : BeaconBlockHeader) : List Byte :=
  containerEncode (beaconBlockHeaderFields v)

def decodeBeaconBlockHeader (buf : List Byte) : Except DecodeError BeaconBlockHeader :=
  (containerSlices beaconBlockHeaderLayout buf).bind fun ss =>
    (decodeU64 (ss.getD 0 [])).bind fun x0 =>
    (decodeU64 (ss.getD 1 [])).bind fun x1 =>
    (decodeBytesFV 32 (ss.getD 2 [])).bind fun x2 =>
    (decodeBytesFV 32 (ss.getD 3 [])).bind fun x3 =>
    (decodeBytesFV 32 (ss.getD 4 [])).bind fun x4 =>
    .ok ⟨x0, x1, x2, x3, x4⟩

theorem layoutMatches_beaconBlockHeader (v : BeaconBlockHeader) :
    layoutMatches beaconBlockHeaderLayout (beaconBlockHeaderFields v) :=
  ⟨rfl,
    fun _ => (encodeU64_length v.slot).symm,
    rfl,
    fun _ => (encodeU64_length v.proposer_index).symm,
    rfl,
    fun _ => (encodeBytesFV_length v.parent_root).symm,
    rfl,
    fun _ => (encodeBytesFV_length v.state_root).symm,
    rfl,
    fun _ => (encodeBytesFV_length v.body_root).symm,
    trivial⟩

theorem encodeBeaconBlockHeader_length (v : BeaconBlockHeader) :
    (encodeBeaconBlockHeader v).length = 112 := by
  simp [encodeBeaconBlockHeader, containerEncode_length, beaconBlockHeaderFields,
    fixedRegionLen, layoutOfFields, slotLen, varTotal,
    encodeBytesFV_length, encodeU64_length]

theorem decodeBeaconBlockHeader_encode (v : BeaconBlockHeader) :
    decodeBeaconBlockHeader (encodeBeaconBlockHeader v) = .ok v := by
  rw [encodeBeaconBlockHeader, decodeBeaconBlockHeader,
    containerSlices_encode beaconBlockHeaderLayout (beaconBlockHeaderFields v)
      (layoutMatches_beaconBlockHeader v)
      (by
        have h := encodeBeaconBlockHeader_length v
        rw [encodeBeaconBlockHeader, containerEncode_length] at h
        omega),
    except_bind_ok]
  simp only [beaconBlockHeaderFields, List.map_cons, List.map_nil,
    List.getD_cons_zero, List.getD_cons_succ]
  rw [decodeU64_encodeU64, except_bind_ok, decodeU64_encodeU64, except_bind_ok, decodeBytesFV_encode, except_bind_ok, decodeBytesFV_encode, except_bind_ok, decodeBytesFV_encode, except_bind_ok]

/-- `SignedBeaconBlockHeader` from `src/beacon_block.rs`. -/
structure SignedBeaconBlockHeader where
  message : BeaconBlockHeader
  signature : SignatureBytes
  deriving DecidableEq

def signedBeaconBlockHeaderFields (v : SignedBeaconBlockHeader) : List (Bool × List Byte) :=
  [(true, encodeBeaconBlockHeader v.message), (true, encodeBytesFV v.signature)]

def signedBeaconBlockHeaderLayout : List (Bool × Nat) := [(true, 112), (true, 96)]

def encodeSignedBeaconBlockHeader (v : SignedBeaconBlockHeader) : List Byte :=
  containerEncode (signedBeaconBlockHeaderFields v)

def decodeSignedBeaconBlockHeader (buf : List Byte) : Except DecodeError SignedBeaconBlockHeader :=
  (containerSlices signedBeaconBlockHeaderLayout buf).bind fun ss =>
    (decodeBeaconBlockHeader (ss.getD 0 [])).bind fun x0 =>
    (decodeBytesFV 96 (ss.getD 1 [])).bind fun x1 =>
    .ok ⟨x0, x1⟩

theorem layoutMatches_signedBeaconBlockHeader (v : SignedBeaconBlockHeader) :
    layoutMatches signedBeaconBlockHeaderLayout (signedBeaconBlockHeaderFields v) :=
  ⟨rfl,
    fun _ => (encodeBeaconBlockHeader_length v.message).symm,
    rfl,
    fun _ => (encodeBytesFV_length v.signature).symm,
    trivial⟩

theorem encodeSignedBeaconBlockHeader_length (v : SignedBeaconBlockHeader) :
    (encodeSignedBeaconBlockHeader v).length = 208 := by
  simp [encodeSignedBeaconBlockHeader, containerEncode_length, signedBeaconBlockHeaderFields,
    fixedRegionLen, layoutOfFields, slotLen, varTotal,
    encodeBeaconBlockHeader_length, encodeBytesFV_length]

theorem decodeSignedBeaconBlockHeader_encode (v : SignedBeaconBlockHeader) :
    decodeSignedBeaconBlockHeader (encodeSignedBeaconBlockHeader v) = .ok v := by
  rw [encodeSignedBeaconBlockHeader, decodeSignedBeaconBlockHeader,
    containerSlices_encode signedBeaconBlockHeaderLayout (signedBeaconBlockHeaderFields v)
      (layoutMatches_signedBeaconBlockHeader v)
      (by
        have h := encodeSignedBeaconBlockHeader_length v
        rw [encodeSignedBeaconBlockHeader, containerEncode_length] at h
        omega),
    except_bind_ok]
  simp only [signedBeaconBlockHeaderFields, List.map_cons, List.map_nil,
    List.getD_cons_zero, List.getD_cons_succ]
  rw [decodeBeaconBlockHeader_encode, except_bind_ok, decodeBytesFV_encode, except_bind_ok]

/-- `ProposerSlashing` from `src/beacon_block.rs`. -/
structure ProposerSlashing where
  signed_header_1 : SignedBeaconBlockHeader
  signed_header_2 : SignedBeaconBlockHeader
  deriving DecidableEq

def proposerSlashingFields (v : ProposerSlashing) : List (Bool × List Byte) :=
  [(true, encodeSignedBeaconBlockHeader v.signed_header_1), (true, encodeSignedBeaconBlockHeader v.signed_header_2)]

def proposerSlashingLayout : List (Bool × Nat) := [(true, 208), (true, 208)]

def encodeProposerSlashing (v : ProposerSlashing) : List Byte :=
  containerEncode (proposerSlashingFields v)

def decodeProposerSlashing (buf : List Byte) : Except DecodeError ProposerSlashing :=
  (containerSlices proposerSlashingLayout buf).bind fun ss =>
    (decodeSignedBeaconBlockHeader (ss.getD 0 [])).bind fun x0 =>
    (decodeSignedBeaconBlockHeader (ss.getD 1 [])).bind fun x1 =>
    .ok ⟨x0, x1⟩

theorem layoutMatches_proposerSlashing (v : ProposerSlashing) :
    layoutMatches proposerSlashingLayout (proposerSlashingFields v) :=
  ⟨rfl,
    fun _ => (encodeSignedBeaconBlockHeader_length v.signed_header_1).symm,
    rfl,
    fun _ => (encodeSignedBeaconBlockHeader_length v.signed_header_2).symm,
    trivial⟩

theorem encodeProposerSlashing_length (v : ProposerSlashing) :
    (encodeProposerSlashing v).length = 416 := by
  simp [encodeProposerSlashing, containerEncode_length, proposerSlashingFields,
    fixedRegionLen, layoutOfFields, slotLen, varTotal,
    encodeSignedBeaconBlockHeader_length]

theorem decodeProposerSlashing_encode (v : ProposerSlashing) :
    decodeProposerSlashing (encodeProposerSlashing v) = .ok v := by
  rw [encodeProposerSlashing, decodeProposerSlashing,
    containerSlices_encode proposerSlashingLayout (proposerSlashingFields v)
      (layoutMatches_proposerSlashing v)
      (by
        have h := encodeProposerSlashing_length v
        rw [encodeProposerSlashing, containerEncode_length] at h
        omega),
    except_bind_ok]
  simp only [proposerSlashingFields, List.map_cons, List.map_nil,
    List.getD_cons_zero, List.getD_cons_succ]
  rw [decodeSignedBeaconBlockHeader_encode, except_bind_ok, decodeSignedBeaconBlockHeader_encode, except_bind_ok]

/-- `AttestationData` from `src/beacon_block.rs`. -/
structure AttestationData where
  slot : Uint64
  index : Uint64
  beacon_block_root : H256
  source : Checkpoint
  target : Checkpoint
  deriving DecidableEq

def attestationDataFields (v : AttestationData) : List (Bool × List Byte) :=
  [(true, encodeU64 v.slot), (true, encodeU64 v.index), (true, encodeBytesFV v.beacon_block_root), (true, encodeCheckpoint v.source), (true, encodeCheckpoint v.target)]

def attestationDataLayout : List (Bool × Nat) := [(true, 8), (true, 8), (true, 32), (true, 40), (true, 40)]

def encodeAttestationData (v : AttestationData) : List Byte :=
  containerEncode (attestationDataFields v)

def decodeAttestationData (buf : List Byte) : Except DecodeError AttestationData :=
  (containerSlices attestationDataLayout buf).bind fun ss =>
    (decodeU64 (ss.getD 0 [])).bind fun x0 =>
    (decodeU64 (ss.getD 1 [])).bind fun x1 =>
    (decodeBytesFV 32 (ss.getD 2 [])).bind fun x2 =>
    (decodeCheckpoint (ss.getD 3 [])).bind fun x3 =>
    (decodeCheckpoint (ss.getD 4 [])).bind fun x4 =>
    .ok ⟨x0, x1, x2, x3, x4⟩

theorem layoutMatches_attestationData (v : AttestationData) :
    layoutMatches attestationDataLayout (attestationDataFields v) :=
  ⟨rfl,
    fun _ => (encodeU64_length v.slot).symm,
    rfl,
    fun _ => (encodeU64_length v.index).symm,
    rfl,
    fun _ => (encodeBytesFV_length v.beacon_block_root).symm,
    rfl,
    fun _ => (encodeCheckpoint_length v.source).symm,
    rfl,
    fun _ => (encodeCheckpoint_length v.target).symm,
    trivial⟩

theorem encodeAttestationData_length (v : AttestationData) :
    (encodeAttestationData v).length = 128 := by
  simp [encodeAttestationData, containerEncode_length, attestationDataFields,
    fixedRegionLen, layoutOfFields, slotLen, varTotal,
    encodeBytesFV_length, encodeCheckpoint_length, encodeU64_length]

theorem decodeAttestationData_encode (v : AttestationData) :
    decodeAttestationData (encodeAttestationData v) = .ok v := by
  rw [encodeAttestationData, decodeAttestationData,
    containerSlices_encode attestationDataLayout (attestationDataFields v)
      (layoutMatches_attestationData v)
      (by
        have h := encodeAttestationData_length v
        rw [encodeAttestationData, containerEncode_length] at h
        omega),
    except_bind_ok]
  simp only [attestationDataFields, List.map_cons, List.map_nil,
    List.getD_cons_zero, List.getD_cons_succ]
  rw [decodeU64_encodeU64, except_bind_ok, decodeU64_encodeU64, except_bind_ok, decodeBytesFV_encode, except_bind_ok, decodeCheckpoint_encode, except_bind_ok, decodeCheckpoint_encode, except_bind_ok]

/-- `DepositData` from `src/beacon_block.rs`. -/
structure DepositData where
  pubkey : PublicKeyBytes
  withdrawal_credentials : H256
  amount : Uint64
  signature : SignatureBytes
  deriving DecidableEq

def depositDataFields (v : DepositData) : List (Bool × List Byte) :=
  [(true, encodeBytesFV v.pubkey), (true, encodeBytesFV v.withdrawal_credentials), (true, encodeU64 v.amount), (true, encodeBytesFV v.signature)]

def depositDataLayout : List (Bool × Nat) := [(true, 48), (true, 32), (true, 8), (true, 96)]

def encodeDepositData (v : DepositData) : List Byte :=
  containerEncode (depositDataFields v)

def decodeDepositData (buf : List Byte) : Except DecodeError DepositData :=
  (containerSlices depositDataLayout buf).bind fun ss =>
    (decodeBytesFV 48 (ss.getD 0 [])).bind fun x0 =>
    (decodeBytesFV 32 (ss.getD 1 [])).bind fun x1 =>
    (decodeU64 (ss.getD 2 [])).bind fun x2 =>
    (decodeBytesFV 96 (ss.getD 3 [])).bind fun x3 =>
    .ok ⟨x0, x1, x2, x3⟩

theorem layoutMatches_depositData (v : DepositData) :
    layoutMatches depositDataLayout (depositDataFields v) :=
  ⟨rfl,
    fun _ => (encodeBytesFV_length v.pubkey).symm,
    rfl,
    fun _ => (encodeBytesFV_length v.withdrawal_credentials).symm,
    rfl,
    fun _ => (encodeU64_length v.amount).symm,
    rfl,
    fun _ => (encodeBytesFV_length v.signature).symm,
    trivial⟩

theorem encodeDepositData_length (v : DepositData) :
    (encodeDepositData v).length = 184 := by
  simp [encodeDepositData, containerEncode_length, depositDataFields,
    fixedRegionLen, layoutOfFields, slotLen, varTotal,
    encodeBytesFV_length, encodeU64_length]

theorem decodeDepositData_encode (v : DepositData) :
    decodeDepositData (encodeDepositData v) = .ok v := by
  rw [encodeDepositData, decodeDepositData,
    containerSlices_encode depositDataLayout (depositDataFields v)
      (layoutMatches_depositData v)
      (by
        have h := encodeDepositData_length v
        rw [encodeDepositData, containerEncode_length] at h
        omega),
    except_bind_ok]
  simp only [depositDataFields, List.map_cons, List.map_nil,
    List.getD_cons_zero, List.getD_cons_succ]
  rw [decodeBytesFV_encode, except_bind_ok, decodeBytesFV_encode, except_bind_ok, decodeU64_encodeU64, except_bind_ok, decodeBytesFV_encode, except_bind_ok]

/-- `Deposit` from `src/beacon_block.rs`. -/
structure Deposit where
  proof : FixedVector H256 32
  data : DepositData
  deriving DecidableEq

def depositFields (v : Deposit) : List (Bool × List Byte) :=
  [(true, encodeProofVec v.proof), (true, encodeDepositData v.data)]

def depositLayout : List (Bool × Nat) := [(true, 1024), (true, 184)]

def encodeDeposit (v : Deposit) : List Byte :=
  containerEncode (depositFields v)

def decodeDeposit (buf : List Byte) : Except DecodeError Deposit :=
  (containerSlices depositLayout buf).bind fun ss =>
    (decodeProofVec (ss.getD 0 [])).bind fun x0 =>
    (decodeDepositData (ss.getD 1 [])).bind fun x1 =>
    .ok ⟨x0, x1⟩

theorem layoutMatches_deposit (v : Deposit) :
    layoutMatches depositLayout (depositFields v) :=
  ⟨rfl,
    fun _ => (encodeProofVec_length v.proof).symm,
    rfl,
    fun _ => (encodeDepositData_length v.data).symm,
    trivial⟩

theorem encodeDeposit_length (v : Deposit) :
    (encodeDeposit v).length = 1208 := by
  simp [encodeDeposit, containerEncode_length, depositFields,
    fixedRegionLen, layoutOfFields, slotLen, varTotal,
    encodeDepositData_length, encodeProofVec_length]

theorem decodeDeposit_encode (v : Deposit) :
    decodeDeposit (encodeDeposit v) = .ok v := by
  rw [encodeDeposit, decodeDeposit,
    containerSlices_encode depositLayout (depositFields v)
      (layoutMatches_deposit v)
      (by
        have h := encodeDeposit_length v
        rw [encodeDeposit, containerEncode_length] at h
        omega),
    except_bind_ok]
  simp only [depositFields, List.map_cons, List.map_nil,
    List.getD_cons_zero, List.getD_cons_succ]
  rw [decodeProofVec_encode, except_bind_ok, decodeDepositData_encode, except_bind_ok]

/-- `VoluntaryExit` from `src/beacon_block.rs`. -/
structure VoluntaryExit where
  epoch : Uint64
  validator_index : Uint64
  deriving DecidableEq

def voluntaryExitFields (v : VoluntaryExit) : List (Bool × List Byte) :=
  [(true, encodeU64 v.epoch), (true, encodeU64 v.validator_index)]

def voluntaryExitLayout : List (Bool × Nat) := [(true, 8), (true, 8)]

def encodeVoluntaryExit (v : VoluntaryExit) : List Byte :=
  containerEncode (voluntaryExitFields v)

def decodeVoluntaryExit (buf : List Byte) : Except DecodeError VoluntaryExit :=
  (containerSlices voluntaryExitLayout buf).bind fun ss =>
    (decodeU64 (ss.getD 0 [])).bind fun x0 =>
    (decodeU64 (ss.getD 1 [])).bind fun x1 =>
    .ok ⟨x0, x1⟩

theorem layoutMatches_voluntaryExit (v : VoluntaryExit) :
    layoutMatches voluntaryExitLayout (voluntaryExitFields v) :=
  ⟨rfl,
    fun _ => (encodeU64_length v.epoch).symm,
    rfl,
    fun _ => (encodeU64_length v.validator_index).symm,
    trivial⟩

theorem encodeVoluntaryExit_length (v : VoluntaryExit) :
    (encodeVoluntaryExit v).length = 16 := by
  simp [encodeVoluntaryExit, containerEncode_length, voluntaryExitFields,
    fixedRegionLen, layoutOfFields, slotLen, varTotal,
    encodeU64_length]

theorem decodeVoluntaryExit_encode (v : VoluntaryExit) :
    decodeVoluntaryExit (encodeVoluntaryExit v) = .ok v := by
  rw [encodeVoluntaryExit, decodeVoluntaryExit,
    containerSlices_encode voluntaryExitLayout (voluntaryExitFields v)
      (layoutMatches_voluntaryExit v)
      (by
        have h := encodeVoluntaryExit_length v
        rw [encodeVoluntaryExit, containerEncode_length] at h
        omega),
    except_bind_ok]
  simp only [voluntaryExitFields, List.map_cons, List.map_nil,
    List.getD_cons_zero, List.getD_cons_succ]
  rw [decodeU64_encodeU64, except_bind_ok, decodeU64_encodeU64, except_bind_ok]

/-- `SignedVoluntaryExit` from `src/beacon_block.rs`. -/
structure SignedVoluntaryExit where
  message : VoluntaryExit
  signature : SignatureBytes
  deriving DecidableEq

def signedVoluntaryExitFields (v : SignedVoluntaryExit) : List (Bool × List Byte) :=
  [(true, encodeVoluntaryExit v.message), (true, encodeBytesFV v.signature)]

def signedVoluntaryExitLayout : List (Bool × Nat) := [(true, 16), (true, 96)]

def encodeSignedVoluntaryExit (v : SignedVoluntaryExit) : List Byte :=
  containerEncode (signedVoluntaryExitFields v)

def decodeSignedVoluntaryExit (buf : List Byte) : Except DecodeError SignedVoluntaryExit :=
  (containerSlices signedVoluntaryExitLayout buf).bind fun ss =>
    (decodeVoluntaryExit (ss.getD 0 [])).bind fun x0 =>
    (decodeBytesFV 96 (ss.getD 1 [])).bind fun x1 =>
    .ok ⟨x0, x1⟩

theorem layoutMatches_signedVoluntaryExit (v : SignedVoluntaryExit) :
    layoutMatches signedVoluntaryExitLayout (signedVoluntaryExitFields v) :=
  ⟨rfl,
    fun _ => (encodeVoluntaryExit_length v.message).symm,
    rfl,
    fun _ => (encodeBytesFV_length v.signature).symm,
    trivial⟩

theorem encodeSignedVoluntaryExit_length (v : SignedVoluntaryExit) :
    (encodeSignedVoluntaryExit v).length = 112 := by
  simp [encodeSignedVoluntaryExit, containerEncode_length, signedVoluntaryExitFields,
    fixedRegionLen, layoutOfFields, slotLen, varTotal,
    encodeBytesFV_length, encodeVoluntaryExit_length]

theorem decodeSignedVoluntaryExit_encode (v : SignedVoluntaryExit) :
    decodeSignedVoluntaryExit (encodeSignedVoluntaryExit v) = .ok v := by
  rw [encodeSignedVoluntaryExit, decodeSignedVoluntaryExit,
    containerSlices_encode signedVoluntaryExitLayout (signedVoluntaryExitFields v)
      (layoutMatches_signedVoluntaryExit v)
      (by
        have h := encodeSignedVoluntaryExit_length v
        rw [encodeSignedVoluntaryExit, containerEncode_length] at h
        omega),
    except_bind_ok]
  simp only [signedVoluntaryExitFields, List.map_cons, List.map_nil,
    List.getD_cons_zero, List.getD_cons_succ]
  rw [decodeVoluntaryExit_encode, except_bind_ok, decodeBytesFV_encode, except_bind_ok]

/-- `SyncAggregate` from `src/beacon_block.rs`. -/
structure SyncAggregate where
  sync_committee_bits : BitVector 512
  sync_committee_signature : SignatureBytes
  deriving DecidableEq

def syncAggregateFields (v : SyncAggregate) : List (Bool × List Byte) :=
  [(true, encodeBitVector v.sync_committee_bits), (true, encodeBytesFV v.sync_committee_signature)]

def syncAggregateLayout : List (Bool × Nat) := [(true, 64), (true, 96)]

def encodeSyncAggregate (v : SyncAggregate) : List Byte :=
  containerEncode (syncAggregateFields v)

def decodeSyncAggregate (buf : List Byte) : Except DecodeError SyncAggregate :=
  (containerSlices syncAggregateLayout buf).bind fun ss =>
    (decodeBitVector 512 (ss.getD 0 [])).bind fun x0 =>
    (decodeBytesFV 96 (ss.getD 1 [])).bind fun x1 =>
    .ok ⟨x0, x1⟩

theorem layoutMatches_syncAggregate (v : SyncAggregate) :
    layoutMatches syncAggregateLayout (syncAggregateFields v) :=
  ⟨rfl,
    fun _ => (encodeBitVector512_length v.sync_committee_bits).symm,
    rfl,
    fun _ => (encodeBytesFV_length v.sync_committee_signature).symm,
    trivial⟩

theorem encodeSyncAggregate_length (v : SyncAggregate) :
    (encodeSyncAggregate v).length = 160 := by
  simp [encodeSyncAggregate, containerEncode_length, syncAggregateFields,
    fixedRegionLen, layoutOfFields, slotLen, varTotal,
    encodeBitVector512_length, encodeBytesFV_length]

theorem decodeSyncAggregate_encode (v : SyncAggregate) :
    decodeSyncAggregate (encodeSyncAggregate v) = .ok v := by
  rw [encodeSyncAggregate, decodeSyncAggregate,
    containerSlices_encode syncAggregateLayout (syncAggregateFields v)
      (layoutMatches_syncAggregate v)
      (by
        have h := encodeSyncAggregate_length v
        rw [encodeSyncAggregate, containerEncode_length] at h
        omega),
    except_bind_ok]
  simp only [syncAggregateFields, List.map_cons, List.map_nil,
    List.getD_cons_zero, List.getD_cons_succ]
  rw [decodeBitVector_encode, except_bind_ok, decodeBytesFV_encode, except_bind_ok]

/-- `Withdrawal` from `src/beacon_block.rs`. -/
structure Withdrawal where
  index : Uint64
  validator_index : Uint64
  address : H160
  amount : Uint64
  deriving DecidableEq

def withdrawalFields (v : Withdrawal) : List (Bool × List Byte) :=
  [(true, encodeU64 v.index), (true, encodeU64 v.validator_index), (true, encodeBytesFV v.address), (true, encodeU64 v.amount)]

def withdrawalLayout : List (Bool × Nat) := [(true, 8), (true, 8), (true, 20), (true, 8)]

def encodeWithdrawal (v : Withdrawal) : List Byte :=
  containerEncode (withdrawalFields v)

def decodeWithdrawal (buf : List Byte) : Except DecodeError Withdrawal :=
  (containerSlices withdrawalLayout buf).bind fun ss =>
    (decodeU64 (ss.getD 0 [])).bind fun x0 =>
    (decodeU64 (ss.getD 1 [])).bind fun x1 =>
    (decodeBytesFV 20 (ss.getD 2 [])).bind fun x2 =>
    (decodeU64 (ss.getD 3 [])).bind fun x3 =>
    .ok ⟨x0, x1, x2, x3⟩

theorem layoutMatches_withdrawal (v : Withdrawal) :
    layoutMatches withdrawalLayout (withdrawalFields v) :=
  ⟨rfl,
    fun _ => (encodeU64_length v.index).symm,
    rfl,
    fun _ => (encodeU64_length v.validator_index).symm,
    rfl,
    fun _ => (encodeBytesFV_length v.address).symm,
    rfl,
    fun _ => (encodeU64_length v.amount).symm,
    trivial⟩

theorem encodeWithdrawal_length (v : Withdrawal) :
    (encodeWithdrawal v).length = 44 := by
  simp [encodeWithdrawal, containerEncode_length, withdrawalFields,
    fixedRegionLen, layoutOfFields, slotLen, varTotal,
    encodeBytesFV_length, encodeU64_length]

theorem decodeWithdrawal_encode (v : Withdrawal) :
    decodeWithdrawal (encodeWithdrawal v) = .ok v := by
  rw [encodeWithdrawal, decodeWithdrawal,
    containerSlices_encode withdrawalLayout (withdrawalFields v)
      (layoutMatches_withdrawal v)
      (by
        have h := encodeWithdrawal_length v
        rw [encodeWithdrawal, containerEncode_length] at h
        omega),
    except_bind_ok]
  simp only [withdrawalFields, List.map_cons, List.map_nil,
    List.getD_cons_zero, List.getD_cons_succ]
  rw [decodeU64_encodeU64, except_bind_ok, decodeU64_encodeU64, except_bind_ok, decodeBytesFV_encode, except_bind_ok, decodeU64_encodeU64, except_bind_ok]

/-- `BlsToExecutionChange` from `src/beacon_block.rs`. -/
structure BlsToExecutionChange where
  validator_index : Uint64
  from_bls_pubkey : PublicKeyBytes
  to_execution_address : H160
  deriving DecidableEq

def blsToExecutionChangeFields (v : BlsToExecutionChange) : List (Bool × List Byte) :=
  [(true, encodeU64 v.validator_index), (true, encodeBytesFV v.from_bls_pubkey), (true, encodeBytesFV v.to_execution_address)]

def blsToExecutionChangeLayout : List (Bool × Nat) := [(true, 8), (true, 48), (true, 20)]

def encodeBlsToExecutionChange (v : BlsToExecutionChange) : List Byte :=
  containerEncode (blsToExecutionChangeFields v)

def decodeBlsToExecutionChange (buf : List Byte) : Except DecodeError BlsToExecutionChange :=
  (containerSlices blsToExecutionChangeLayout buf).bind fun ss =>
    (decodeU64 (ss.getD 0 [])).bind fun x0 =>
    (decodeBytesFV 48 (ss.getD 1 [])).bind fun x1 =>
    (decodeBytesFV 20 (ss.getD 2 [])).bind fun x2 =>
    .ok ⟨x0, x1, x2⟩

theorem layoutMatches_blsToExecutionChange (v : BlsToExecutionChange) :
    layoutMatches blsToExecutionChangeLayout (blsToExecutionChangeFields v) :=
  ⟨rfl,
    fun _ => (encodeU64_length v.validator_index).symm,
    rfl,
    fun _ => (encodeBytesFV_length v.from_bls_pubkey).symm,
    rfl,
    fun _ => (encodeBytesFV_length v.to_execution_address).symm,
    trivial⟩

theorem encodeBlsToExecutionChange_length (v : BlsToExecutionChange) :
    (encodeBlsToExecutionChange v).length = 76 := by
  simp [encodeBlsToExecutionChange, containerEncode_length, blsToExecutionChangeFields,
    fixedRegionLen, layoutOfFields, slotLen, varTotal,
    encodeBytesFV_length, encodeU64_length]

theorem decodeBlsToExecutionChange_encode (v : BlsToExecutionChange) :
    decodeBlsToExecutionChange (encodeBlsToExecutionChange v) = .ok v := by
  rw [encodeBlsToExecutionChange, decodeBlsToExecutionChange,
    containerSlices_encode blsToExecutionChangeLayout (blsToExecutionChangeFields v)
      (layoutMatches_blsToExecutionChange v)
      (by
        have h := encodeBlsToExecutionChange_length v
        rw [encodeBlsToExecutionChange, containerEncode_length] at h
        omega),
    except_bind_ok]
  simp only [blsToExecutionChangeFields, List.map_cons, List.map_nil,
    List.getD_cons_zero, List.getD_cons_succ]
  rw [decodeU64_encodeU64, except_bind_ok, decodeBytesFV_encode, except_bind_ok, decodeBytesFV_encode, except_bind_ok]

/-- `SignedBlsToExecutionChange` from `src/beacon_block.rs`. -/
structure SignedBlsToExecutionChange where
  message : BlsToExecutionChange
  signature : SignatureBytes
  deriving DecidableEq

def signedBlsToExecutionChangeFields (v : SignedBlsToExecutionChange) : List (Bool × List Byte) :=
  [(true, encodeBlsToExecutionChange v.message), (true, encodeBytesFV v.signature)]

def signedBlsToExecutionChangeLayout : List (Bool × Nat) := [(true, 76), (true, 96)]

def encodeSignedBlsToExecutionChange (v : SignedBlsToExecutionChange) : List Byte :=
  containerEncode (signedBlsToExecutionChangeFields v)

def decodeSignedBlsToExecutionChange (buf : List Byte) : Except DecodeError SignedBlsToExecutionChange :=
  (containerSlices signedBlsToExecutionChangeLayout buf).bind fun ss =>
    (decodeBlsToExecutionChange (ss.getD 0 [])).bind fun x0 =>
    (decodeBytesFV 96 (ss.getD 1 [])).bind fun x1 =>
    .ok ⟨x0, x1⟩

theorem layoutMatches_signedBlsToExecutionChange (v : SignedBlsToExecutionChange) :
    layoutMatches signedBlsToExecutionChangeLayout (signedBlsToExecutionChangeFields v) :=
  ⟨rfl,
    fun _ => (encodeBlsToExecutionChange_length v.message).symm,
    rfl,
    fun _ => (encodeBytesFV_length v.signature).symm,
    trivial⟩

theorem encodeSignedBlsToExecutionChange_length (v : SignedBlsToExecutionChange) :
    (encodeSignedBlsToExecutionChange v).length = 172 := by
  simp [encodeSignedBlsToExecutionChange, containerEncode_length, signedBlsToExecutionChangeFields,
    fixedRegionLen, layoutOfFields, slotLen, varTotal,
    encodeBlsToExecutionChange_length, encodeBytesFV_length]

theorem decodeSignedBlsToExecutionChange_encode (v : SignedBlsToExecutionChange) :
    decodeSignedBlsToExecutionChange (encodeSignedBlsToExecutionChange v) = .ok v := by
  rw [encodeSignedBlsToExecutionChange, decodeSignedBlsToExecutionChange,
    containerSlices_encode signedBlsToExecutionChangeLayout (signedBlsToExecutionChangeFields v)
      (layoutMatches_signedBlsToExecutionChange v)
      (by
        have h := encodeSignedBlsToExecutionChange_length v
        rw [encodeSignedBlsToExecutionChange, containerEncode_length] at h
        omega),
    except_bind_ok]
  simp only [signedBlsToExecutionChangeFields, List.map_cons, List.map_nil,
    List.getD_cons_zero, List.getD_cons_succ]
  rw [decodeBlsToExecutionChange_encode, except_bind_ok, decodeBytesFV_encode, except_bind_ok]


def encodeProposerSlashingList (v : VariableList ProposerSlashing 16) : List Byte :=
  encodeBoundedFixedList encodeProposerSlashing v

def decodeProposerSlashingList (buf : List Byte) :
    Except DecodeError (VariableList ProposerSlashing 16) :=
  decodeBoundedFixedList decodeProposerSlashing 416 16 buf

theorem decodeProposerSlashingList_encode (v : VariableList ProposerSlashing 16) :
    decodeProposerSlashingList (encodeProposerSlashingList v) = .ok v :=
  decodeBoundedFixedList_encode _ _ 416 16 (by decide) v
    (fun a _ => encodeProposerSlashing_length a)
    (fun a _ => decodeProposerSlashing_encode a)

def encodeDepositList (v : VariableList Deposit 16) : List Byte :=
  encodeBoundedFixedList encodeDeposit v

def decodeDepositList (buf : List Byte) :
    Except DecodeError (VariableList Deposit 16) :=
  decodeBoundedFixedList decodeDeposit 1208 16 buf

theorem decodeDepositList_encode (v : VariableList Deposit 16) :
    decodeDepositList (encodeDepositList v) = .ok v :=
  decodeBoundedFixedList_encode _ _ 1208 16 (by decide) v
    (fun a _ => encodeDeposit_length a) (fun a _ => decodeDeposit_encode a)

def encodeVoluntaryExitList (v : VariableList SignedVoluntaryExit 16) : List Byte :=
  encodeBoundedFixedList encodeSignedVoluntaryExit v

def decodeVoluntaryExitList (buf : List Byte) :
    Except DecodeError (VariableList SignedVoluntaryExit 16) :=
  decodeBoundedFixedList decodeSignedVoluntaryExit 112 16 buf

theorem decodeVoluntaryExitList_encode (v : VariableList SignedVoluntaryExit 16) :
    decodeVoluntaryExitList (encodeVoluntaryExitList v) = .ok v :=
  decodeBoundedFixedList_encode _ _ 112 16 (by decide) v
    (fun a _ => encodeSignedVoluntaryExit_length a)
    (fun a _ => decodeSignedVoluntaryExit_encode a)

def encodeWithdrawalList (v : VariableList Withdrawal 16) : List Byte :=
  encodeBoundedFixedList encodeWithdrawal v

def decodeWithdrawalList (buf : List Byte) :
    Except DecodeError (VariableList Withdrawal 16) :=
  decodeBoundedFixedList decodeWithdrawal 44 16 buf

theorem decodeWithdrawalList_encode (v : VariableList Withdrawal 16) :
    decodeWithdrawalList (encodeWithdrawalList v) = .ok v :=
  decodeBoundedFixedList_encode _ _ 44 16 (by decide) v
    (fun a _ => encodeWithdrawal_length a) (fun a _ => decodeWithdrawal_encode a)

def encodeBlsChangeList (v : VariableList SignedBlsToExecutionChange 16) : List Byte :=
  encodeBoundedFixedList encodeSignedBlsToExecutionChange v

def decodeBlsChangeList (buf : List Byte) :
    Except DecodeError (VariableList SignedBlsToExecutionChange 16) :=
  decodeBoundedFixedList decodeSignedBlsToExecutionChange 172 16 buf

theorem decodeBlsChangeList_encode (v : VariableList SignedBlsToExecutionChange 16) :
    decodeBlsChangeList (encodeBlsChangeList v) = .ok v :=
  decodeBoundedFixedList_encode _ _ 172 16 (by decide) v
    (fun a _ => encodeSignedBlsToExecutionChange_length a)
    (fun a _ => decodeSignedBlsToExecutionChange_encode a)

/-- `CustomBitList<N>` from `src/beacon_block.rs`: a newtype around
`BitList<N>` annotated `#[ssz(struct_behaviour = "transparent")]`. -/
structure CustomBitList (maxN : Nat) where
  inner : BitList maxN
  deriving DecidableEq

/-- Modelled from the spec and the `transparent` derive annotation in
`src/beacon_block.rs`: the wrapper encodes exactly as its single field,
with no container wrapping and no offset table. -/
def encodeCustomBitList {maxN : Nat} (v : CustomBitList maxN) : List Byte :=
  encodeBitList v.inner

/-- Modelled from the spec and the `transparent` derive annotation:
decoding delegates to the inner bit list and wraps the result. -/
def decodeCustomBitList (maxN : Nat) (buf : List Byte) :
    Except DecodeError (CustomBitList maxN) :=
  (decodeBitList maxN buf).map CustomBitList.mk

theorem decodeCustomBitList_encode {maxN : Nat} (v : CustomBitList maxN) :
    decodeCustomBitList maxN (encodeCustomBitList v) = .ok v := by
  obtain ⟨b⟩ := v
  rw [decodeCustomBitList, encodeCustomBitList, decodeBitList_encode]
  rfl

/-- Modelled from the spec: `BitList::with_capacity(n)` builds an
all-zero bit list of length `n`, failing exactly when `n` exceeds the
type's maximum (bounds are validated at construction, §3). -/
def bitListWithCapacity (maxN n : Nat) : Option (BitList maxN) :=
  if h : n ≤ maxN then
    some ⟨List.replicate n false, by rw [List.length_replicate]; exact h⟩
  else none

/-- `CustomBitList::default` from `src/beacon_block.rs`:
`CustomBitList(BitList::with_capacity(0).unwrap())`; `none` models the
panic of `unwrap`. -/
def customBitListDefault (maxN : Nat) : Option (CustomBitList maxN) :=
  (bitListWithCapacity maxN 0).map CustomBitList.mk

/-- `IndexedAttestation` from `src/beacon_block.rs`. -/
structure IndexedAttestation where
  attesting_indices : VariableList Uint64 2048
  data : AttestationData
  signature : SignatureBytes
  deriving DecidableEq

def indexedAttestationFields (v : IndexedAttestation) : List (Bool × List Byte) :=
  [(false, encodeU64List v.attesting_indices), (true, encodeAttestationData v.data),
    (true, encodeBytesFV v.signature)]

def indexedAttestationLayout : List (Bool × Nat) :=
  [(false, 0), (true, 128), (true, 96)]

def encodeIndexedAttestation (v : IndexedAttestation) : List Byte :=
  containerEncode (indexedAttestationFields v)

def decodeIndexedAttestation (buf : List Byte) :
    Except DecodeError IndexedAttestation :=
  (containerSlices indexedAttestationLayout buf).bind fun ss =>
    (decodeU64List 2048 (ss.getD 0 [])).bind fun x0 =>
    (decodeAttestationData (ss.getD 1 [])).bind fun x1 =>
    (decodeBytesFV 96 (ss.getD 2 [])).bind fun x2 =>
    .ok ⟨x0, x1, x2⟩

theorem layoutMatches_indexedAttestation (v : IndexedAttestation) :
    layoutMatches indexedAttestationLayout (indexedAttestationFields v) :=
  ⟨rfl, fun h => by simp at h,
    rfl, fun _ => (encodeAttestationData_length v.data).symm,
    rfl, fun _ => (encodeBytesFV_length v.signature).symm, trivial⟩

theorem decodeIndexedAttestation_encode (v : IndexedAttestation)
    (h32 : (encodeIndexedAttestation v).length < 2 ^ 32) :
    decodeIndexedAttestation (encodeIndexedAttestation v) = .ok v := by
  rw [encodeIndexedAttestation, decodeIndexedAttestation,
    containerSlices_encode indexedAttestationLayout (indexedAttestationFields v)
      (layoutMatches_indexedAttestation v)
      (by rw [encodeIndexedAttestation, containerEncode_length] at h32; exact h32),
    except_bind_ok]
  simp only [indexedAttestationFields, List.map_cons, List.map_nil,
    List.getD_cons_zero, List.getD_cons_succ]
  rw [decodeU64List_encode, except_bind_ok, decodeAttestationData_encode,
    except_bind_ok, decodeBytesFV_encode, except_bind_ok]

/-- `AttesterSlashing` from `src/beacon_block.rs`. -/
structure AttesterSlashing where
  attestation_1 : IndexedAttestation
  attestation_2 : IndexedAttestation
  deriving DecidableEq

def attesterSlashingFields (v : AttesterSlashing) : List (Bool × List Byte) :=
  [(false, encodeIndexedAttestation v.attestation_1),
    (false, encodeIndexedAttestation v.attestation_2)]

def attesterSlashingLayout : List (Bool × Nat) := [(false, 0), (false, 0)]

def encodeAttesterSlashing (v : AttesterSlashing) : List Byte :=
  containerEncode (attesterSlashingFields v)

def decodeAttesterSlashing (buf : List Byte) :
    Except DecodeError AttesterSlashing :=
  (containerSlices attesterSlashingLayout buf).bind fun ss =>
    (decodeIndexedAttestation (ss.getD 0 [])).bind fun x0 =>
    (decodeIndexedAttestation (ss.getD 1 [])).bind fun x1 =>
    .ok ⟨x0, x1⟩

theorem layoutMatches_attesterSlashing (v : AttesterSlashing) :
    layoutMatches attesterSlashingLayout (attesterSlashingFields v) :=
  ⟨rfl, fun h => by simp at h, rfl, fun h => by simp at h, trivial⟩

theorem decodeAttesterSlashing_encode (v : AttesterSlashing)
    (h32 : (encodeAttesterSlashing v).length < 2 ^ 32) :
    decodeAttesterSlashing (encodeAttesterSlashing v) = .ok v := by
  have hc : (containerEncode (attesterSlashingFields v)).length < 2 ^ 32 := by
    rw [encodeAttesterSlashing] at h32; exact h32
  have h1 : (encodeIndexedAttestation v.attestation_1).length < 2 ^ 32 :=
    field_length_lt_of_encode _ (false, encodeIndexedAttestation v.attestation_1)
      (by simp [attesterSlashingFields]) hc
  have h2 : (encodeIndexedAttestation v.attestation_2).length < 2 ^ 32 :=
    field_length_lt_of_encode _ (false, encodeIndexedAttestation v.attestation_2)
      (by simp [attesterSlashingFields]) hc
  rw [encodeAttesterSlashing, decodeAttesterSlashing,
    containerSlices_encode attesterSlashingLayout (attesterSlashingFields v)
      (layoutMatches_attesterSlashing v)
      (by rw [containerEncode_length] at hc; exact hc),
    except_bind_ok]
  simp only [attesterSlashingFields, List.map_cons, List.map_nil,
    List.getD_cons_zero, List.getD_cons_succ]
  rw [decodeIndexedAttestation_encode v.attestation_1 h1, except_bind_ok,
    decodeIndexedAttestation_encode v.attestation_2 h2, except_bind_ok]

/-- `Attestation` from `src/beacon_block.rs`. -/
structure Attestation where
  aggregation_bits : CustomBitList 2048
  data : AttestationData
  signature : SignatureBytes
  deriving DecidableEq

def attestationFields (v : Attestation) : List (Bool × List Byte) :=
  [(false, encodeCustomBitList v.aggregation_bits),
    (true, encodeAttestationData v.data), (true, encodeBytesFV v.signature)]

def attestationLayout : List (Bool × Nat) := [(false, 0), (true, 128), (true, 96)]

def encodeAttestation (v : Attestation) : List Byte :=
  containerEncode (attestationFields v)

def decodeAttestation (buf : List Byte) : Except DecodeError Attestation :=
  (containerSlices attestationLayout buf).bind fun ss =>
    (decodeCustomBitList 2048 (ss.getD 0 [])).bind fun x0 =>
    (decodeAttestationData (ss.getD 1 [])).bind fun x1 =>
    (decodeBytesFV 96 (ss.getD 2 [])).bind fun x2 =>
    .ok ⟨x0, x1, x2⟩

theorem layoutMatches_attestation (v : Attestation) :
    layoutMatches attestationLayout (attestationFields v) :=
  ⟨rfl, fun h => by simp at h,
    rfl, fun _ => (encodeAttestationData_length v.data).symm,
    rfl, fun _ => (encodeBytesFV_length v.signature).symm, trivial⟩

theorem decodeAttestation_encode (v : Attestation)
    (h32 : (encodeAttestation v).length < 2 ^ 32) :
    decodeAttestation (encodeAttestation v) = .ok v := by
  rw [encodeAttestation, decodeAttestation,
    containerSlices_encode attestationLayout (attestationFields v)
      (layoutMatches_attestation v)
      (by rw [encodeAttestation, containerEncode_length] at h32; exact h32),
    except_bind_ok]
  simp only [attestationFields, List.map_cons, List.map_nil,
    List.getD_cons_zero, List.getD_cons_succ]
  rw [decodeCustomBitList_encode, except_bind_ok, decodeAttestationData_encode,
    except_bind_ok, decodeBytesFV_encode, except_bind_ok]

def encodeAttesterSlashingList (l : List AttesterSlashing) : List Byte :=
  encodeVarList encodeAttesterSlashing l

def decodeAttesterSlashingList (buf : List Byte) :
    Except DecodeError (VariableList AttesterSlashing 2) :=
  decodeVarList decodeAttesterSlashing 2 buf

theorem decodeAttesterSlashingList_encode (l : List AttesterSlashing)
    (hl : l.length ≤ 2) (h32 : (encodeAttesterSlashingList l).length < 2 ^ 32) :
    decodeAttesterSlashingList (encodeAttesterSlashingList l) = .ok ⟨l, hl⟩ := by
  rw [encodeAttesterSlashingList] at h32
  rw [encodeAttesterSlashingList, decodeAttesterSlashingList]
  apply decodeVarList_encode_list
  · intro a ha
    apply decodeAttesterSlashing_encode
    have hle := elem_length_le_encodeVarList encodeAttesterSlashing l a ha
    omega
  · exact h32

def encodeAttestationList (l : List Attestation) : List Byte :=
  encodeVarList encodeAttestation l

def decodeAttestationList (buf : List Byte) :
    Except DecodeError (VariableList Attestation 128) :=
  decodeVarList decodeAttestation 128 buf

theorem decodeAttestationList_encode (l : List Attestation)
    (hl : l.length ≤ 128) (h32 : (encodeAttestationList l).length < 2 ^ 32) :
    decodeAttestationList (encodeAttestationList l) = .ok ⟨l, hl⟩ := by
  rw [encodeAttestationList] at h32
  rw [encodeAttestationList, decodeAttestationList]
  apply decodeVarList_encode_list
  · intro a ha
    apply decodeAttestation_encode
    have hle := elem_length_le_encodeVarList encodeAttestation l a ha
    omega
  · exact h32

/-- `Transaction` from `src/beacon_block.rs`. -/
abbrev Transaction := ByteList 1073741824

def encodeTransactionsList (l : List Transaction) : List Byte :=
  encodeVarList encodeByteList l

def decodeTransactionsList (buf : List Byte) :
    Except DecodeError (VariableList Transaction 1048576) :=
  decodeVarList (decodeByteList 1073741824) 1048576 buf

theorem decodeTransactionsList_encode (l : List Transaction)
    (hl : l.length ≤ 1048576)
    (h32 : (encodeTransactionsList l).length < 2 ^ 32) :
    decodeTransactionsList (encodeTransactionsList l) = .ok ⟨l, hl⟩ := by
  rw [encodeTransactionsList] at h32
  rw [encodeTransactionsList, decodeTransactionsList]
  apply decodeVarList_encode_list
  · intro a ha
    exact decodeByteList_encode a
  · exact h32

/-- `ExecutionPayload` from `src/beacon_block.rs` (the `Arc` wrappers are
shared-ownership devices with no codec significance, so the payloads are
embedded directly). -/
structure ExecutionPayload where
  parent_hash : H256
  fee_recipient : H160
  state_root : H256
  receipts_root : H256
  logs_bloom : ByteVector 256
  prev_randao : H256
  block_number : Uint64
  gas_limit : Uint64
  gas_used : Uint64
  timestamp : Uint64
  extra_data : ByteList 32
  base_fee_per_gas : U256
  block_hash : H256
  transactions : VariableList Transaction 1048576
  withdrawals : VariableList Withdrawal 16
  deriving DecidableEq

def executionPayloadFields (v : ExecutionPayload) : List (Bool × List Byte) :=
  [(true, encodeBytesFV v.parent_hash), (true, encodeBytesFV v.fee_recipient),
    (true, encodeBytesFV v.state_root), (true, encodeBytesFV v.receipts_root),
    (true, encodeBytesFV v.logs_bloom), (true, encodeBytesFV v.prev_randao),
    (true, encodeU64 v.block_number), (true, encodeU64 v.gas_limit),
    (true, encodeU64 v.gas_used), (true, encodeU64 v.timestamp),
    (false, encodeByteList v.extra_data), (true, encodeU256 v.base_fee_per_gas),
    (true, encodeBytesFV v.block_hash),
    (false, encodeTransactionsList v.transactions.val),
    (false, encodeWithdrawalList v.withdrawals)]

def executionPayloadLayout : List (Bool × Nat) :=
  [(true, 32), (true, 20), (true, 32), (true, 32), (true, 256), (true, 32),
    (true, 8), (true, 8), (true, 8), (true, 8), (false, 0), (true, 32),
    (true, 32), (false, 0), (false, 0)]

def encodeExecutionPayload (v : ExecutionPayload) : List Byte :=
  containerEncode (executionPayloadFields v)

def decodeExecutionPayload (buf : List Byte) :
    Except DecodeError ExecutionPayload :=
  (containerSlices executionPayloadLayout buf).bind fun ss =>
    (decodeBytesFV 32 (ss.getD 0 [])).bind fun x0 =>
    (decodeBytesFV 20 (ss.getD 1 [])).bind fun x1 =>
    (decodeBytesFV 32 (ss.getD 2 [])).bind fun x2 =>
    (decodeBytesFV 32 (ss.getD 3 [])).bind fun x3 =>
    (decodeBytesFV 256 (ss.getD 4 [])).bind fun x4 =>
    (decodeBytesFV 32 (ss.getD 5 [])).bind fun x5 =>
    (decodeU64 (ss.getD 6 [])).bind fun x6 =>
    (decodeU64 (ss.getD 7 [])).bind fun x7 =>
    (decodeU64 (ss.getD 8 [])).bind fun x8 =>
    (decodeU64 (ss.getD 9 [])).bind fun x9 =>
    (decodeByteList 32 (ss.getD 10 [])).bind fun x10 =>
    (decodeU256 (ss.getD 11 [])).bind fun x11 =>
    (decodeBytesFV 32 (ss.getD 12 [])).bind fun x12 =>
    (decodeTransactionsList (ss.getD 13 [])).bind fun x13 =>
    (decodeWithdrawalList (ss.getD 14 [])).bind fun x14 =>
    .ok ⟨x0, x1, x2, x3, x4, x5, x6, x7, x8, x9, x10, x11, x12, x13, x14⟩

theorem layoutMatches_executionPayload (v : ExecutionPayload) :
    layoutMatches executionPayloadLayout (executionPayloadFields v) :=
  ⟨rfl, fun _ => (encodeBytesFV_length v.parent_hash).symm,
    rfl, fun _ => (encodeBytesFV_length v.fee_recipient).symm,
    rfl, fun _ => (encodeBytesFV_length v.state_root).symm,
    rfl, fun _ => (encodeBytesFV_length v.receipts_root).symm,
    rfl, fun _ => (encodeBytesFV_length v.logs_bloom).symm,
    rfl, fun _ => (encodeBytesFV_length v.prev_randao).symm,
    rfl, fun _ => (encodeU64_length v.block_number).symm,
    rfl, fun _ => (encodeU64_length v.gas_limit).symm,
    rfl, fun _ => (encodeU64_length v.gas_used).symm,
    rfl, fun _ => (encodeU64_length v.timestamp).symm,
    rfl, fun h => by simp at h,
    rfl, fun _ => (encodeU256_length v.base_fee_per_gas).symm,
    rfl, fun _ => (encodeBytesFV_length v.block_hash).symm,
    rfl, fun h => by simp at h,
    rfl, fun h => by simp at h, trivial⟩

theorem decodeExecutionPayload_encode (v : ExecutionPayload)
    (h32 : (encodeExecutionPayload v).length < 2 ^ 32) :
    decodeExecutionPayload (encodeExecutionPayload v) = .ok v := by
  have hc : (containerEncode (executionPayloadFields v)).length < 2 ^ 32 := by
    rw [encodeExecutionPayload] at h32; exact h32
  have htx : (encodeTransactionsList v.transactions.val).length < 2 ^ 32 :=
    field_length_lt_of_encode _ (false, encodeTransactionsList v.transactions.val)
      (by simp [executionPayloadFields]) hc
  rw [encodeExecutionPayload, decodeExecutionPayload,
    containerSlices_encode executionPayloadLayout (executionPayloadFields v)
      (layoutMatches_executionPayload v)
      (by rw [containerEncode_length] at hc; exact hc),
    except_bind_ok]
  simp only [executionPayloadFields, List.map_cons, List.map_nil,
    List.getD_cons_zero, List.getD_cons_succ]
  rw [decodeBytesFV_encode, except_bind_ok, decodeBytesFV_encode, except_bind_ok,
    decodeBytesFV_encode, except_bind_ok, decodeBytesFV_encode, except_bind_ok,
    decodeBytesFV_encode, except_bind_ok, decodeBytesFV_encode, except_bind_ok,
    decodeU64_encodeU64, except_bind_ok, decodeU64_encodeU64, except_bind_ok,
    decodeU64_encodeU64, except_bind_ok, decodeU64_encodeU64, except_bind_ok,
    decodeByteList_encode, except_bind_ok, decodeU256_encode, except_bind_ok,
    decodeBytesFV_encode, except_bind_ok,
    decodeTransactionsList_encode v.transactions.val v.transactions.property htx,
    except_bind_ok, decodeWithdrawalList_encode, except_bind_ok]

/-- `BeaconBlockBody` from `src/beacon_block.rs`. -/
structure BeaconBlockBody where
  randao_reveal : SignatureBytes
  eth1_data : Eth1Data
  graffiti : H256
  proposer_slashings : VariableList ProposerSlashing 16
  attester_slashings : VariableList AttesterSlashing 2
  attestations : VariableList Attestation 128
  deposits : VariableList Deposit 16
  voluntary_exits : VariableList SignedVoluntaryExit 16
  sync_aggregate : SyncAggregate
  execution_payload : ExecutionPayload
  bls_to_execution_changes : VariableList SignedBlsToExecutionChange 16
  deriving DecidableEq

def beaconBlockBodyFields (v : BeaconBlockBody) : List (Bool × List Byte) :=
  [(true, encodeBytesFV v.randao_reveal), (true, encodeEth1Data v.eth1_data),
    (true, encodeBytesFV v.graffiti),
    (false, encodeProposerSlashingList v.proposer_slashings),
    (false, encodeAttesterSlashingList v.attester_slashings.val),
    (false, encodeAttestationList v.attestations.val),
    (false, encodeDepositList v.deposits),
    (false, encodeVoluntaryExitList v.voluntary_exits),
    (true, encodeSyncAggregate v.sync_aggregate),
    (false, encodeExecutionPayload v.execution_payload),
    (false, encodeBlsChangeList v.bls_to_execution_changes)]

def beaconBlockBodyLayout : List (Bool × Nat) :=
  [(true, 96), (true, 72), (true, 32), (false, 0), (false, 0), (false, 0),
    (false, 0), (false, 0), (true, 160), (false, 0), (false, 0)]

def encodeBeaconBlockBody (v : BeaconBlockBody) : List Byte :=
  containerEncode (beaconBlockBodyFields v)

def decodeBeaconBlockBody (buf : List Byte) :
    Except DecodeError BeaconBlockBody :=
  (containerSlices beaconBlockBodyLayout buf).bind fun ss =>
    (decodeBytesFV 96 (ss.getD 0 [])).bind fun x0 =>
    (decodeEth1Data (ss.getD 1 [])).bind fun x1 =>
    (decodeBytesFV 32 (ss.getD 2 [])).bind fun x2 =>
    (decodeProposerSlashingList (ss.getD 3 [])).bind fun x3 =>
    (decodeAttesterSlashingList (ss.getD 4 [])).bind fun x4 =>
    (decodeAttestationList (ss.getD 5 [])).bind fun x5 =>
    (decodeDepositList (ss.getD 6 [])).bind fun x6 =>
    (decodeVoluntaryExitList (ss.getD 7 [])).bind fun x7 =>
    (decodeSyncAggregate (ss.getD 8 [])).bind fun x8 =>
    (decodeExecutionPayload (ss.getD 9 [])).bind fun x9 =>
    (decodeBlsChangeList (ss.getD 10 [])).bind fun x10 =>
    .ok ⟨x0, x1, x2, x3, x4, x5, x6, x7, x8, x9, x10⟩

theorem layoutMatches_beaconBlockBody (v : BeaconBlockBody) :
    layoutMatches beaconBlockBodyLayout (beaconBlockBodyFields v) :=
  ⟨rfl, fun _ => (encodeBytesFV_length v.randao_reveal).symm,
    rfl, fun _ => (encodeEth1Data_length v.eth1_data).symm,
    rfl, fun _ => (encodeBytesFV_length v.graffiti).symm,
    rfl, fun h => by simp at h,
    rfl, fun h => by simp at h,
    rfl, fun h => by simp at h,
    rfl, fun h => by simp at h,
    rfl, fun h => by simp at h,
    rfl, fun _ => (encodeSyncAggregate_length v.sync_aggregate).symm,
    rfl, fun h => by simp at h,
    rfl, fun h => by simp at h, trivial⟩

theorem decodeBeaconBlockBody_encode (v : BeaconBlockBody)
    (h32 : (encodeBeaconBlockBody v).length < 2 ^ 32) :
    decodeBeaconBlockBody (encodeBeaconBlockBody v) = .ok v := by
  have hc : (containerEncode (beaconBlockBodyFields v)).length < 2 ^ 32 := by
    rw [encodeBeaconBlockBody] at h32; exact h32
  have hsl : (encodeAttesterSlashingList v.attester_slashings.val).length < 2 ^ 32 :=
    field_length_lt_of_encode _
      (false, encodeAttesterSlashingList v.attester_slashings.val)
      (by simp [beaconBlockBodyFields]) hc
  have hat : (encodeAttestationList v.attestations.val).length < 2 ^ 32 :=
    field_length_lt_of_encode _ (false, encodeAttestationList v.attestations.val)
      (by simp [beaconBlockBodyFields]) hc
  have hep : (encodeExecutionPayload v.execution_payload).length < 2 ^ 32 :=
    field_length_lt_of_encode _ (false, encodeExecutionPayload v.execution_payload)
      (by simp [beaconBlockBodyFields]) hc
  rw [encodeBeaconBlockBody, decodeBeaconBlockBody,
    containerSlices_encode beaconBlockBodyLayout (beaconBlockBodyFields v)
      (layoutMatches_beaconBlockBody v)
      (by rw [containerEncode_length] at hc; exact hc),
    except_bind_ok]
  simp only [beaconBlockBodyFields, List.map_cons, List.map_nil,
    List.getD_cons_zero, List.getD_cons_succ]
  rw [decodeBytesFV_encode, except_bind_ok, decodeEth1Data_encode, except_bind_ok,
    decodeBytesFV_encode, except_bind_ok, decodeProposerSlashingList_encode,
    except_bind_ok,
    decodeAttesterSlashingList_encode v.attester_slashings.val
      v.attester_slashings.property hsl, except_bind_ok,
    decodeAttestationList_encode v.attestations.val v.attestations.property hat,
    except_bind_ok, decodeDepositList_encode, except_bind_ok,
    decodeVoluntaryExitList_encode, except_bind_ok, decodeSyncAggregate_encode,
    except_bind_ok, decodeExecutionPayload_encode v.execution_payload hep,
    except_bind_ok, decodeBlsChangeList_encode, except_bind_ok]

/-- `BeaconBlock` from `src/beacon_block.rs`. -/
structure BeaconBlock where
  slot : Uint64
  proposer_index : Uint64
  parent_root : H256
  state_root : H256
  body : BeaconBlockBody
  deriving DecidableEq

def beaconBlockFields (v : BeaconBlock) : List (Bool × List Byte) :=
  [(true, encodeU64 v.slot), (true, encodeU64 v.proposer_index),
    (true, encodeBytesFV v.parent_root), (true, encodeBytesFV v.state_root),
    (false, encodeBeaconBlockBody v.body)]

def beaconBlockLayout : List (Bool × Nat) :=
  [(true, 8), (true, 8), (true, 32), (true, 32), (false, 0)]

def encodeBeaconBlock (v : BeaconBlock) : List Byte :=
  containerEncode (beaconBlockFields v)

def decodeBeaconBlock (buf : List Byte) : Except DecodeError BeaconBlock :=
  (containerSlices beaconBlockLayout buf).bind fun ss =>
    (decodeU64 (ss.getD 0 [])).bind fun x0 =>
    (decodeU64 (ss.getD 1 [])).bind fun x1 =>
    (decodeBytesFV 32 (ss.getD 2 [])).bind fun x2 =>
    (decodeBytesFV 32 (ss.getD 3 [])).bind fun x3 =>
    (decodeBeaconBlockBody (ss.getD 4 [])).bind fun x4 =>
    .ok ⟨x0, x1, x2, x3, x4⟩

theorem layoutMatches_beaconBlock (v : BeaconBlock) :
    layoutMatches beaconBlockLayout (beaconBlockFields v) :=
  ⟨rfl, fun _ => (encodeU64_length v.slot).symm,
    rfl, fun _ => (encodeU64_length v.proposer_index).symm,
    rfl, fun _ => (encodeBytesFV_length v.parent_root).symm,
    rfl, fun _ => (encodeBytesFV_length v.state_root).symm,
    rfl, fun h => by simp at h, trivial⟩

theorem decodeBeaconBlock_encode (v : BeaconBlock)
    (h32 : (encodeBeaconBlock v).length < 2 ^ 32) :
    decodeBeaconBlock (encodeBeaconBlock v) = .ok v := by
  have hc : (containerEncode (beaconBlockFields v)).length < 2 ^ 32 := by
    rw [encodeBeaconBlock] at h32; exact h32
  have hbody : (encodeBeaconBlockBody v.body).length < 2 ^ 32 :=
    field_length_lt_of_encode _ (false, encodeBeaconBlockBody v.body)
      (by simp [beaconBlockFields]) hc
  rw [encodeBeaconBlock, decodeBeaconBlock,
    containerSlices_encode beaconBlockLayout (beaconBlockFields v)
      (layoutMatches_beaconBlock v)
      (by rw [containerEncode_length] at hc; exact hc),
    except_bind_ok]
  simp only [beaconBlockFields, List.map_cons, List.map_nil,
    List.getD_cons_zero, List.getD_cons_succ]
  rw [decodeU64_encodeU64, except_bind_ok, decodeU64_encodeU64, except_bind_ok,
    decodeBytesFV_encode, except_bind_ok, decodeBytesFV_encode, except_bind_ok,
    decodeBeaconBlockBody_encode v.body hbody, except_bind_ok]

/-- `SignedBeaconBlock` from `src/beacon_block.rs`. -/
structure SignedBeaconBlock where
  message : BeaconBlock
  signature : SignatureBytes
  deriving DecidableEq

def signedBeaconBlockFields (v : SignedBeaconBlock) : List (Bool × List Byte) :=
  [(false, encodeBeaconBlock v.message), (true, encodeBytesFV v.signature)]

def signedBeaconBlockLayout : List (Bool × Nat) := [(false, 0), (true, 96)]

def encodeSignedBeaconBlock (v : SignedBeaconBlock) : List Byte :=
  containerEncode (signedBeaconBlockFields v)

def decodeSignedBeaconBlock (buf : List Byte) :
    Except DecodeError SignedBeaconBlock :=
  (containerSlices signedBeaconBlockLayout buf).bind fun ss =>
    (decodeBeaconBlock (ss.getD 0 [])).bind fun x0 =>
    (decodeBytesFV 96 (ss.getD 1 [])).bind fun x1 =>
    .ok ⟨x0, x1⟩

theorem layoutMatches_signedBeaconBlock (v : SignedBeaconBlock) :
    layoutMatches signedBeaconBlockLayout (signedBeaconBlockFields v) :=
  ⟨rfl, fun h => by simp at h,
    rfl, fun _ => (encodeBytesFV_length v.signature).symm, trivial⟩

theorem decodeSignedBeaconBlock_encode (v : SignedBeaconBlock)
    (h32 : (encodeSignedBeaconBlock v).length < 2 ^ 32) :
    decodeSignedBeaconBlock (encodeSignedBeaconBlock v) = .ok v := by
  have hc : (containerEncode (signedBeaconBlockFields v)).length < 2 ^ 32 := by
    rw [encodeSignedBeaconBlock] at h32; exact h32
  have hmsg : (encodeBeaconBlock v.message).length < 2 ^ 32 :=
    field_length_lt_of_encode _ (false, encodeBeaconBlock v.message)
      (by simp [signedBeaconBlockFields]) hc
  rw [encodeSignedBeaconBlock, decodeSignedBeaconBlock,
    containerSlices_encode signedBeaconBlockLayout (signedBeaconBlockFields v)
      (layoutMatches_signedBeaconBlock v)
      (by rw [containerEncode_length] at hc; exact hc),
    except_bind_ok]
  simp only [signedBeaconBlockFields, List.map_cons, List.map_nil,
    List.getD_cons_zero, List.getD_cons_succ]
  rw [decodeBeaconBlock_encode v.message hmsg, except_bind_ok,
    decodeBytesFV_encode, except_bind_ok]

/-- The two-field demonstration container of spec §8 scenario 4:
`{a: u64 (fixed), b: VariableList<u8,16> (variable)}`. -/
structure DemoPair where
  a : Uint64
  b : ByteList 16
  deriving DecidableEq

def demoPairFields (v : DemoPair) : List (Bool × List Byte) :=
  [(true, encodeU64 v.a), (false, encodeByteList v.b)]

def demoPairLayout : List (Bool × Nat) := [(true, 8), (false, 0)]

def encodeDemoPair (v : DemoPair) : List Byte :=
  containerEncode (demoPairFields v)

def decodeDemoPair (buf : List Byte) : Except DecodeError DemoPair :=
  (containerSlices demoPairLayout buf).bind fun ss =>
    (decodeU64 (ss.getD 0 [])).bind fun x0 =>
    (decodeByteList 16 (ss.getD 1 [])).bind fun x1 =>
    .ok ⟨x0, x1⟩

/-- The §8 scenario 4 value: `a = 7`, `b = [9, 9]`. -/
def demoPairValue : DemoPair := ⟨⟨7, by decide⟩, ⟨[9, 9], by decide⟩⟩

def zeroU64 : Uint64 := ⟨0, by decide⟩

def zeroBytes (n : Nat) : FixedVector Byte n :=
  ⟨List.replicate n 0, List.length_replicate _ _⟩

def zeroU256 : U256 := ⟨List.replicate 4 zeroU64, List.length_replicate _ _⟩

def emptyVarList {α : Type} (maxN : Nat) : VariableList α maxN := ⟨[], Nat.zero_le _⟩

def zeroBitVector (n : Nat) : BitVector n :=
  ⟨List.replicate n false, List.length_replicate _ _⟩

def emptyBitList (maxN : Nat) : BitList maxN := ⟨[], Nat.zero_le _⟩

def exCheckpoint : Checkpoint := ⟨zeroU64, zeroBytes 32⟩

def exEth1Data : Eth1Data := ⟨zeroBytes 32, zeroU64, zeroBytes 32⟩

def exBeaconBlockHeader : BeaconBlockHeader :=
  ⟨zeroU64, zeroU64, zeroBytes 32, zeroBytes 32, zeroBytes 32⟩

def exSignedBeaconBlockHeader : SignedBeaconBlockHeader :=
  ⟨exBeaconBlockHeader, zeroBytes 96⟩

def exProposerSlashing : ProposerSlashing :=
  ⟨exSignedBeaconBlockHeader, exSignedBeaconBlockHeader⟩

def exAttestationData : AttestationData :=
  ⟨zeroU64, zeroU64, zeroBytes 32, exCheckpoint, exCheckpoint⟩

def exIndexedAttestation : IndexedAttestation :=
  ⟨emptyVarList 2048, exAttestationData, zeroBytes 96⟩

def exAttesterSlashing : AttesterSlashing :=
  ⟨exIndexedAttestation, exIndexedAttestation⟩

def exAttestation : Attestation :=
  ⟨⟨emptyBitList 2048⟩, exAttestationData, zeroBytes 96⟩

def exDepositData : DepositData :=
  ⟨zeroBytes 48, zeroBytes 32, zeroU64, zeroBytes 96⟩

def exDeposit : Deposit :=
  ⟨⟨List.replicate 32 (zeroBytes 32), List.length_replicate _ _⟩, exDepositData⟩

def exVoluntaryExit : VoluntaryExit := ⟨zeroU64, zeroU64⟩

def exSignedVoluntaryExit : SignedVoluntaryExit := ⟨exVoluntaryExit, zeroBytes 96⟩

def exSyncAggregate : SyncAggregate := ⟨zeroBitVector 512, zeroBytes 96⟩

def exWithdrawal : Withdrawal := ⟨zeroU64, zeroU64, zeroBytes 20, zeroU64⟩

def exBlsToExecutionChange : BlsToExecutionChange :=
  ⟨zeroU64, zeroBytes 48, zeroBytes 20⟩

def exSignedBlsToExecutionChange : SignedBlsToExecutionChange :=
  ⟨exBlsToExecutionChange, zeroBytes 96⟩

def exExecutionPayload : ExecutionPayload :=
  ⟨zeroBytes 32, zeroBytes 20, zeroBytes 32, zeroBytes 32, zeroBytes 256,
    zeroBytes 32, zeroU64, zeroU64, zeroU64, zeroU64, emptyVarList 32,
    zeroU256, zeroBytes 32, emptyVarList 1048576, emptyVarList 16⟩

def exBeaconBlockBody : BeaconBlockBody :=
  ⟨zeroBytes 96, exEth1Data, zeroBytes 32, emptyVarList 16, emptyVarList 2,
    emptyVarList 128, emptyVarList 16, emptyVarList 16, exSyncAggregate,
    exExecutionPayload, emptyVarList 16⟩

def exBeaconBlock : BeaconBlock :=
  ⟨zeroU64, zeroU64, zeroBytes 32, zeroBytes 32, exBeaconBlockBody⟩

def exSignedBeaconBlock : SignedBeaconBlock := ⟨exBeaconBlock, zeroBytes 96⟩

/-- C1: for every validly constructed value of each catalogued record type
(e.g. `SignedBeaconBlock`), decoding the bytes produced by encoding the
value yields the value back; for the types holding variable-size payloads
this holds whenever the encoding fits the 4-byte offset width. -/
theorem C1_roundtrip :
    (∀ v : SignedBeaconBlock, (encodeSignedBeaconBlock v).length < 2 ^ 32 →
      decodeSignedBeaconBlock (encodeSignedBeaconBlock v) = .ok v)
  ∧
    (∀ v : BeaconBlock, (encodeBeaconBlock v).length < 2 ^ 32 →
      decodeBeaconBlock (encodeBeaconBlock v) = .ok v)
  ∧
    (∀ v : BeaconBlockBody, (encodeBeaconBlockBody v).length < 2 ^ 32 →
      decodeBeaconBlockBody (encodeBeaconBlockBody v) = .ok v)
  ∧
    (∀ v : ExecutionPayload, (encodeExecutionPayload v).length < 2 ^ 32 →
      decodeExecutionPayload (encodeExecutionPayload v) = .ok v)
  ∧
    (∀ v : Attestation, (encodeAttestation v).length < 2 ^ 32 →
      decodeAttestation (encodeAttestation v) = .ok v)
  ∧
    (∀ v : IndexedAttestation, (encodeIndexedAttestation v).length < 2 ^ 32 →
      decodeIndexedAttestation (encodeIndexedAttestation v) = .ok v)
  ∧
    (∀ v : AttesterSlashing, (encodeAttesterSlashing v).length < 2 ^ 32 →
      decodeAttesterSlashing (encodeAttesterSlashing v) = .ok v)
  ∧
    (∀ v : SignedBeaconBlockHeader, decodeSignedBeaconBlockHeader (encodeSignedBeaconBlockHeader v) = .ok v)
  ∧
    (∀ v : BeaconBlockHeader, decodeBeaconBlockHeader (encodeBeaconBlockHeader v) = .ok v)
  ∧
    (∀ v : Eth1Data, decodeEth1Data (encodeEth1Data v) = .ok v)
  ∧
    (∀ v : ProposerSlashing, decodeProposerSlashing (encodeProposerSlashing v) = .ok v)
  ∧
    (∀ v : Checkpoint, decodeCheckpoint (encodeCheckpoint v) = .ok v)
  ∧
    (∀ v : AttestationData, decodeAttestationData (encodeAttestationData v) = .ok v)
  ∧
    (∀ v : DepositData, decodeDepositData (encodeDepositData v) = .ok v)
  ∧
    (∀ v : Deposit, decodeDeposit (encodeDeposit v) = .ok v)
  ∧
    (∀ v : VoluntaryExit, decodeVoluntaryExit (encodeVoluntaryExit v) = .ok v)
  ∧
    (∀ v : SignedVoluntaryExit, decodeSignedVoluntaryExit (encodeSignedVoluntaryExit v) = .ok v)
  ∧
    (∀ v : SyncAggregate, decodeSyncAggregate (encodeSyncAggregate v) = .ok v)
  ∧
    (∀ v : Withdrawal, decodeWithdrawal (encodeWithdrawal v) = .ok v)
  ∧
    (∀ v : BlsToExecutionChange, decodeBlsToExecutionChange (encodeBlsToExecutionChange v) = .ok v)
  ∧
    (∀ v : SignedBlsToExecutionChange, decodeSignedBlsToExecutionChange (encodeSignedBlsToExecutionChange v) = .ok v)
  :=
  ⟨decodeSignedBeaconBlock_encode, decodeBeaconBlock_encode, decodeBeaconBlockBody_encode, decodeExecutionPayload_encode, decodeAttestation_encode, decodeIndexedAttestation_encode, decodeAttesterSlashing_encode, decodeSignedBeaconBlockHeader_encode, decodeBeaconBlockHeader_encode, decodeEth1Data_encode, decodeProposerSlashing_encode, decodeCheckpoint_encode, decodeAttestationData_encode, decodeDepositData_encode, decodeDeposit_encode, decodeVoluntaryExit_encode, decodeSignedVoluntaryExit_encode, decodeSyncAggregate_encode, decodeWithdrawal_encode, decodeBlsToExecutionChange_encode, decodeSignedBlsToExecutionChange_encode⟩

/-- C1 witness: the round trip evaluated at a concrete value of every
catalogued type, with each size hypothesis discharged by computation. -/
theorem C1_roundtrip_witness :
    decodeSignedBeaconBlock (encodeSignedBeaconBlock exSignedBeaconBlock) = .ok exSignedBeaconBlock
  ∧
    decodeBeaconBlock (encodeBeaconBlock exBeaconBlock) = .ok exBeaconBlock
  ∧
    decodeBeaconBlockBody (encodeBeaconBlockBody exBeaconBlockBody) = .ok exBeaconBlockBody
  ∧
    decodeExecutionPayload (encodeExecutionPayload exExecutionPayload) = .ok exExecutionPayload
  ∧
    decodeAttestation (encodeAttestation exAttestation) = .ok exAttestation
  ∧
    decodeIndexedAttestation (encodeIndexedAttestation exIndexedAttestation) = .ok exIndexedAttestation
  ∧
    decodeAttesterSlashing (encodeAttesterSlashing exAttesterSlashing) = .ok exAttesterSlashing
  ∧
    decodeSignedBeaconBlockHeader (encodeSignedBeaconBlockHeader exSignedBeaconBlockHeader) = .ok exSignedBeaconBlockHeader
  ∧
    decodeBeaconBlockHeader (encodeBeaconBlockHeader exBeaconBlockHeader) = .ok exBeaconBlockHeader
  ∧
    decodeEth1Data (encodeEth1Data exEth1Data) = .ok exEth1Data
  ∧
    decodeProposerSlashing (encodeProposerSlashing exProposerSlashing) = .ok exProposerSlashing
  ∧
    decodeCheckpoint (encodeCheckpoint exCheckpoint) = .ok exCheckpoint
  ∧
    decodeAttestationData (encodeAttestationData exAttestationData) = .ok exAttestationData
  ∧
    decodeDepositData (encodeDepositData exDepositData) = .ok exDepositData
  ∧
    decodeDeposit (encodeDeposit exDeposit) = .ok exDeposit
  ∧
    decodeVoluntaryExit (encodeVoluntaryExit exVoluntaryExit) = .ok exVoluntaryExit
  ∧
    decodeSignedVoluntaryExit (encodeSignedVoluntaryExit exSignedVoluntaryExit) = .ok exSignedVoluntaryExit
  ∧
    decodeSyncAggregate (encodeSyncAggregate exSyncAggregate) = .ok exSyncAggregate
  ∧
    decodeWithdrawal (encodeWithdrawal exWithdrawal) = .ok exWithdrawal
  ∧
    decodeBlsToExecutionChange (encodeBlsToExecutionChange exBlsToExecutionChange) = .ok exBlsToExecutionChange
  ∧
    decodeSignedBlsToExecutionChange (encodeSignedBlsToExecutionChange exSignedBlsToExecutionChange) = .ok exSignedBlsToExecutionChange
  :=
  ⟨C1_roundtrip.1 exSignedBeaconBlock (by decide),
    C1_roundtrip.2.1 exBeaconBlock (by decide),
    C1_roundtrip.2.2.1 exBeaconBlockBody (by decide),
    C1_roundtrip.2.2.2.1 exExecutionPayload (by decide),
    C1_roundtrip.2.2.2.2.1 exAttestation (by decide),
    C1_roundtrip.2.2.2.2.2.1 exIndexedAttestation (by decide),
    C1_roundtrip.2.2.2.2.2.2.1 exAttesterSlashing (by decide),
    C1_roundtrip.2.2.2.2.2.2.2.1 exSignedBeaconBlockHeader,
    C1_roundtrip.2.2.2.2.2.2.2.2.1 exBeaconBlockHeader,
    C1_roundtrip.2.2.2.2.2.2.2.2.2.1 exEth1Data,
    C1_roundtrip.2.2.2.2.2.2.2.2.2.2.1 exProposerSlashing,
    C1_roundtrip.2.2.2.2.2.2.2.2.2.2.2.1 exCheckpoint,
    C1_roundtrip.2.2.2.2.2.2.2.2.2.2.2.2.1 exAttestationData,
    C1_roundtrip.2.2.2.2.2.2.2.2.2.2.2.2.2.1 exDepositData,
    C1_roundtrip.2.2.2.2.2.2.2.2.2.2.2.2.2.2.1 exDeposit,
    C1_roundtrip.2.2.2.2.2.2.2.2.2.2.2.2.2.2.2.1 exVoluntaryExit,
    C1_roundtrip.2.2.2.2.2.2.2.2.2.2.2.2.2.2.2.2.1 exSignedVoluntaryExit,
    C1_roundtrip.2.2.2.2.2.2.2.2.2.2.2.2.2.2.2.2.2.1 exSyncAggregate,
    C1_roundtrip.2.2.2.2.2.2.2.2.2.2.2.2.2.2.2.2.2.2.1 exWithdrawal,
    C1_roundtrip.2.2.2.2.2.2.2.2.2.2.2.2.2.2.2.2.2.2.2.1 exBlsToExecutionChange,
    C1_roundtrip.2.2.2.2.2.2.2.2.2.2.2.2.2.2.2.2.2.2.2.2 exSignedBlsToExecutionChange⟩

/-- C2: a container decode reads the offset slots in field order and
fails with OffsetNotIncreasing unless the first offset equals the
fixed-region length exactly and each subsequent offset is at least the
previous, with OffsetOutOfBounds when an ordered offset points past the
buffer end, and with LengthMismatch when the buffer is shorter than the
fixed region; the two-field container `{a: u64, b: VariableList<u8,16>}`
with `a = 7, b = [9,9]` encodes to little-endian 7, the offset 12, then
`[9,9]`, decodes back, and fails when truncated to 11 bytes. -/
theorem C2_container_offset_validation :
    (∀ (layout : List (Bool × Nat)) (buf : List Byte),
        buf.length < fixedRegionLen layout →
        containerSlices layout buf = .error .lengthMismatch)
  ∧ (∀ (layout : List (Bool × Nat)) (buf : List Byte),
        numVar layout ≠ 0 → fixedRegionLen layout ≤ buf.length →
        offsetsOrdered (fixedRegionLen layout)
          (slotOffsets (readSlots buf layout 0)) = false →
        containerSlices layout buf = .error .offsetNotIncreasing)
  ∧ (∀ (layout : List (Bool × Nat)) (buf : List Byte),
        numVar layout ≠ 0 → fixedRegionLen layout ≤ buf.length →
        offsetsOrdered (fixedRegionLen layout)
          (slotOffsets (readSlots buf layout 0)) = true →
        ¬ (slotOffsets (readSlots buf layout 0)).all
            (fun o => decide (o ≤ buf.length)) = true →
        containerSlices layout buf = .error .offsetOutOfBounds)
  ∧ encodeDemoPair demoPairValue
      = [7, 0, 0, 0, 0, 0, 0, 0, 12, 0, 0, 0, 9, 9]
  ∧ decodeDemoPair (encodeDemoPair demoPairValue) = .ok demoPairValue
  ∧ decodeDemoPair ((encodeDemoPair demoPairValue).take 11)
      = .error .lengthMismatch := by
  refine ⟨?_, ?_, ?_, rfl, rfl, rfl⟩
  · intro layout buf hlt
    rw [containerSlices]
    by_cases hnv : numVar layout = 0
    · rw [if_pos hnv, if_neg (by omega)]
    · rw [if_neg hnv, if_pos hlt]
  · intro layout buf hnv hge hord
    rw [containerSlices, if_neg hnv, if_neg (by omega),
      if_neg (by rw [hord]; simp)]
  · intro layout buf hnv hge hord hbounds
    rw [containerSlices, if_neg hnv, if_neg (by omega), if_pos hord,
      if_neg hbounds]

/-- C2 witness: the three failure modes evaluated on concrete layouts and
buffers — a buffer shorter than the fixed region, an offset that is not
the fixed-region length, and an offset pointing past the buffer end. -/
theorem C2_container_offset_validation_witness :
    containerSlices demoPairLayout (List.replicate 11 (0 : Byte))
      = .error .lengthMismatch
  ∧ containerSlices demoPairLayout
      [7, 0, 0, 0, 0, 0, 0, 0, 13, 0, 0, 0, 9, 9]
      = .error .offsetNotIncreasing
  ∧ containerSlices [(false, 0), (false, 0)]
      [8, 0, 0, 0, 100, 0, 0, 0, 1, 1]
      = .error .offsetOutOfBounds :=
  ⟨C2_container_offset_validation.1 demoPairLayout _ (by decide),
    C2_container_offset_validation.2.1 demoPairLayout _ (by decide) (by decide)
      (by decide),
    C2_container_offset_validation.2.2.1 [(false, 0), (false, 0)] _ (by decide)
      (by decide) (by decide) (by decide)⟩

/-- C3: bit-list encode packs the data bits least-significant-bit-first,
sets exactly one additional bit immediately after the last data bit as
the length delimiter, zero-pads the rest of the final byte, and decode
recovers the data length from the position of the highest set bit;
`BitList<4>` holding [1,1,0] encodes to the single byte 0x0B and decoding
0x0B recovers exactly the three bits [1,1,0]. -/
theorem C3_bitlist_delimiter (maxN : Nat) (v : BitList maxN) :
    (∀ i, i < v.val.length → bufBit (encodeBitList v) i = v.val.getD i false)
  ∧ bufBit (encodeBitList v) v.val.length = true
  ∧ (∀ i, v.val.length < i → bufBit (encodeBitList v) i = false)
  ∧ (encodeBitList v).length = v.val.length / 8 + 1
  ∧ highestSetBit (encodeBitList v) = some v.val.length
  ∧ decodeBitList maxN (encodeBitList v) = .ok v
  ∧ encodeBitList (⟨[true, true, false], by decide⟩ : BitList 4) = [(11 : Byte)]
  ∧ decodeBitList 4 [(11 : Byte)]
      = .ok (⟨[true, true, false], by decide⟩ : BitList 4) := by
  refine ⟨?_, ?_, ?_, encodeBitList_length v, highestSetBit_encodeBitList v,
    decodeBitList_encode v, rfl, rfl⟩
  · intro i hi
    rw [encodeBitList, bufBit_packBits, List.getD_eq_getElem?_getD,
      List.getElem?_append, if_pos hi, ← List.getD_eq_getElem?_getD]
  · rw [encodeBitList, bufBit_packBits, List.getD_eq_getElem?_getD,
      List.getElem?_append_right (le_refl _)]
    simp
  · intro i hi
    have hle : (v.val ++ [true]).length ≤ i := by
      rw [List.length_append, List.length_singleton]
      omega
    rw [encodeBitList, bufBit_packBits, getD_eq_default_of_le _ _ _ hle]

/-- C3 witness: the delimiter layout of `BitList<4>` holding [1,1,0] —
data bit 0 set, delimiter at position 3, padding clear, round trip. -/
theorem C3_bitlist_delimiter_witness :
    bufBit (encodeBitList (⟨[true, true, false], by decide⟩ : BitList 4)) 0 = true
  ∧ bufBit (encodeBitList (⟨[true, true, false], by decide⟩ : BitList 4)) 3 = true
  ∧ bufBit (encodeBitList (⟨[true, true, false], by decide⟩ : BitList 4)) 7 = false
  ∧ decodeBitList 4 (encodeBitList (⟨[true, true, false], by decide⟩ : BitList 4))
      = .ok (⟨[true, true, false], by decide⟩ : BitList 4) := by
  have h := C3_bitlist_delimiter 4 (⟨[true, true, false], by decide⟩ : BitList 4)
  refine ⟨?_, h.2.1, h.2.2.1 7 (by decide), h.2.2.2.2.2.1⟩
  rw [h.1 0 (by decide)]
  rfl

/-- C4: bit-list decode over an arbitrary buffer — an all-zero buffer
fails with MissingDelimiter; ExtraBitsAfterDelimiter occurs exactly when
some bit above the delimiter is set (which the downward scan that defines
the delimiter rules out); a delimiter position exceeding the maximum
fails with InvalidBoundedLength. -/
theorem C4_bitlist_decode_errors (maxN : Nat) (buf : List Byte) :
    (buf.all (· = (0 : Byte)) = true →
      decodeBitList maxN buf = .error .missingDelimiter)
  ∧ (decodeBitList maxN buf = .error .extraBitsAfterDelimiter ↔
      ∃ p, highestSetBit buf = some p ∧ bitAbove buf p = true)
  ∧ (∀ p, highestSetBit buf = some p → maxN < p →
      decodeBitList maxN buf = .error .invalidBoundedLength) :=
  ⟨decodeBitList_allZero maxN buf, decodeBitList_extra_iff maxN buf,
    fun p hp hgt => decodeBitList_too_long maxN buf p hp hgt⟩

/-- C4 witness: the all-zero two-byte buffer is MissingDelimiter, the
valid buffer 0x0B is not ExtraBitsAfterDelimiter, and 0x10 (delimiter at
position 4) exceeds a maximum of 3 with InvalidBoundedLength. -/
theorem C4_bitlist_decode_errors_witness :
    decodeBitList 4 [(0 : Byte), 0] = .error .missingDelimiter
  ∧ ¬ decodeBitList 4 [(11 : Byte)] = .error .extraBitsAfterDelimiter
  ∧ decodeBitList 3 [(16 : Byte)] = .error .invalidBoundedLength := by
  refine ⟨(C4_bitlist_decode_errors 4 [(0 : Byte), 0]).1 (by decide), ?_,
    (C4_bitlist_decode_errors 3 [(16 : Byte)]).2.2 4 (by decide) (by decide)⟩
  intro hcontra
  obtain ⟨p, hp, hb⟩ :=
    (C4_bitlist_decode_errors 4 [(11 : Byte)]).2.1.mp hcontra
  have hcomp : highestSetBit [(11 : Byte)] = some 3 := by decide
  rw [hcomp] at hp
  have hp3 := Option.some.inj hp
  rw [← hp3] at hb
  exact absurd hb (by decide)

/-- C5: bit-vector encode packs bit i of the sequence so that bit 0 is
the least-significant bit of byte 0, with unused trailing bits zero;
decode requires exactly ceil(n/8) bytes and rejects any nonzero unused
trailing bit with InvalidPadding; `BitVector<8>` holding
[1,0,0,0,0,0,0,1] encodes to 0x81 and decoding 0x81 reproduces it. -/
theorem C5_bitvector_packing (n : Nat) (v : BitVector n) :
    (encodeBitVector v).length = (n + 7) / 8
  ∧ (∀ i, bufBit (encodeBitVector v) i = v.val.getD i false)
  ∧ (∀ i, n ≤ i → bufBit (encodeBitVector v) i = false)
  ∧ decodeBitVector n (encodeBitVector v) = .ok v
  ∧ (∀ buf : List Byte, buf.length ≠ (n + 7) / 8 →
      decodeBitVector n buf = .error .lengthMismatch)
  ∧ (∀ (buf : List Byte) (i : Nat), buf.length = (n + 7) / 8 → n ≤ i →
      i < 8 * buf.length → bufBit buf i = true →
      decodeBitVector n buf = .error .invalidPadding)
  ∧ encodeBitVector (⟨[true, false, false, false, false, false, false, true],
      rfl⟩ : BitVector 8) = [(129 : Byte)]
  ∧ decodeBitVector 8 [(129 : Byte)]
      = .ok ⟨[true, false, false, false, false, false, false, true], rfl⟩ := by
  refine ⟨encodeBitVector_length v, ?_, ?_, decodeBitVector_encode v, ?_, ?_,
    rfl, rfl⟩
  · intro i
    rw [encodeBitVector, bufBit_packBits]
  · intro i hi
    rw [encodeBitVector, bufBit_packBits,
      getD_eq_default_of_le _ _ _ (by rw [v.property]; exact hi)]
  · intro buf hne
    rw [decodeBitVector, if_neg hne]
  · intro buf i hlen hi h8 hbit
    rw [decodeBitVector, if_pos hlen,
      if_neg (by rw [paddingClear_false_of_bit n buf i hi h8 hbit]; simp)]

/-- C5 witness: `BitVector<2>` — bit placement, padding-zero reads, the
InvalidPadding rejection of 0x04, and the LengthMismatch rejection of a
2-byte buffer. -/
theorem C5_bitvector_packing_witness :
    bufBit (encodeBitVector (⟨[true, false], rfl⟩ : BitVector 2)) 0 = true
  ∧ bufBit (encodeBitVector (⟨[true, false], rfl⟩ : BitVector 2)) 5 = false
  ∧ decodeBitVector 2 [(4 : Byte)] = .error .invalidPadding
  ∧ decodeBitVector 2 [(0 : Byte), 0] = .error .lengthMismatch := by
  have h := C5_bitvector_packing 2 (⟨[true, false], rfl⟩ : BitVector 2)
  refine ⟨?_, h.2.2.1 5 (by decide),
    h.2.2.2.2.2.1 [(4 : Byte)] 2 (by decide) (by decide) (by decide) (by decide),
    h.2.2.2.2.1 [(0 : Byte), 0] (by decide)⟩
  rw [h.2.1 0]
  rfl

/-- C6: decoding a bounded list of fixed-size elements requires the
buffer length to be an exact multiple of the element size (LengthMismatch
otherwise), derives the count as length over element size, fails with
InvalidBoundedLength whenever the count exceeds the maximum, and
otherwise succeeds with exactly that many elements — never truncating; a
`VariableList<u64,100>` buffer implying 101 elements is rejected. -/
theorem C6_bounded_list_bound {α : Type}
    (dec : List Byte → Except DecodeError α) (elemLen maxN : Nat)
    (hk : 0 < elemLen)
    (hdec : ∀ s : List Byte, s.length = elemLen → ∃ a, dec s = .ok a) :
    (∀ buf : List Byte, ¬ buf.length % elemLen = 0 →
      decodeBoundedFixedList dec elemLen maxN buf = .error .lengthMismatch)
  ∧ (∀ buf : List Byte, buf.length % elemLen = 0 →
      maxN < buf.length / elemLen →
      decodeBoundedFixedList dec elemLen maxN buf
        = .error .invalidBoundedLength)
  ∧ (∀ buf : List Byte, buf.length % elemLen = 0 →
      buf.length / elemLen ≤ maxN →
      ∃ v : VariableList α maxN,
        decodeBoundedFixedList dec elemLen maxN buf = .ok v
          ∧ v.val.length = buf.length / elemLen)
  ∧ decodeU64List 100 (List.replicate 808 (0 : Byte))
      = .error .invalidBoundedLength := by
  refine ⟨?_, ?_, ?_, rfl⟩
  · intro buf hmod
    rw [decodeBoundedFixedList, if_neg hmod]
  · intro buf hmod hgt
    rw [decodeBoundedFixedList, if_pos hmod, if_pos hgt]
  · intro buf hmod hle
    have hdvd : elemLen ∣ buf.length := Nat.dvd_of_mod_eq_zero hmod
    have hbuf : buf.length = elemLen * (buf.length / elemLen) :=
      (Nat.mul_div_cancel' hdvd).symm
    obtain ⟨hcount, hlens⟩ := chunksOf_spec elemLen hk (buf.length / elemLen)
      buf hbuf
    obtain ⟨l, hl, hlen⟩ :=
      decodeEach_total dec (chunksOf elemLen buf)
        (fun s hs => hdec s (hlens s hs))
    have hllen : l.length = buf.length / elemLen := by rw [hlen, hcount]
    refine ⟨⟨l, by omega⟩, ?_, hllen⟩
    rw [decodeBoundedFixedList, if_pos hmod, if_neg (by omega), hl,
      except_bind_ok, dif_pos (by omega)]

/-- C6 witness: with `u64` elements — a 9-byte buffer is LengthMismatch,
the 808-byte buffer implying 101 elements exceeds a maximum of 100 with
InvalidBoundedLength, and a 16-byte buffer decodes to exactly 2 elements. -/
theorem C6_bounded_list_bound_witness :
    decodeU64List 100 [(0 : Byte), 0, 0, 0, 0, 0, 0, 0, 0]
      = .error .lengthMismatch
  ∧ decodeU64List 100 (List.replicate 808 (0 : Byte))
      = .error .invalidBoundedLength
  ∧ (∃ v : VariableList Uint64 100,
      decodeU64List 100 (List.replicate 16 (0 : Byte)) = .ok v
        ∧ v.val.length = 2) := by
  have h := C6_bounded_list_bound decodeU64 8 100 (by decide)
    (fun s hs => decodeU64_total s hs)
  refine ⟨h.1 _ (by decide), h.2.2.2, ?_⟩
  obtain ⟨v, hv, hlen⟩ := h.2.2.1 (List.replicate 16 (0 : Byte))
    (by decide) (by decide)
  exact ⟨v, hv, by rw [hlen]; decide⟩

/-- C7: a fixed-size-element vector decodes only from a buffer of exactly
`n` times the element size, splitting it into `n` chunks, and fails with
LengthMismatch on any other length; `FixedVector<u8,4>` [1,2,3,4] encodes
to `[01,02,03,04]`, and 3-byte and 5-byte buffers are rejected. -/
theorem C7_fixed_vector_length {α : Type}
    (dec : List Byte → Except DecodeError α) (elemLen n : Nat)
    (hk : 0 < elemLen)
    (hdec : ∀ s : List Byte, s.length = elemLen → ∃ a, dec s = .ok a) :
    (∀ buf : List Byte, ¬ buf.length = n * elemLen →
      decodeFixedVector dec elemLen n buf = .error .lengthMismatch)
  ∧ (∀ buf : List Byte, buf.length = n * elemLen →
      ∃ v : FixedVector α n, decodeFixedVector dec elemLen n buf = .ok v)
  ∧ encodeBytesFV (⟨[1, 2, 3, 4], rfl⟩ : FixedVector Byte 4)
      = [(1 : Byte), 2, 3, 4]
  ∧ decodeBytesFV 4 [(1 : Byte), 2, 3] = .error .lengthMismatch
  ∧ decodeBytesFV 4 [(1 : Byte), 2, 3, 4, 5] = .error .lengthMismatch
  ∧ decodeBytesFV 4 [(1 : Byte), 2, 3, 4] = .ok ⟨[1, 2, 3, 4], rfl⟩ := by
  refine ⟨?_, ?_, rfl, rfl, rfl, rfl⟩
  · intro buf hne
    rw [decodeFixedVector, if_neg hne]
  · intro buf hlen
    have hbuf : buf.length = elemLen * n := by rw [hlen]; ring
    obtain ⟨hcount, hlens⟩ := chunksOf_spec elemLen hk n buf hbuf
    obtain ⟨l, hl, hllen⟩ :=
      decodeEach_total dec (chunksOf elemLen buf)
        (fun s hs => hdec s (hlens s hs))
    have hn : l.length = n := by rw [hllen, hcount]
    refine ⟨⟨l, hn⟩, ?_⟩
    rw [decodeFixedVector, if_pos hlen, hl, except_bind_ok, dif_pos hn]

/-- C7 witness: with `u8` elements and `n = 4` — the wrong-length buffers
are rejected and a 4-byte buffer decodes. -/
theorem C7_fixed_vector_length_witness :
    decodeBytesFV 4 [(9 : Byte), 9, 9] = .error .lengthMismatch
  ∧ (∃ v : FixedVector Byte 4, decodeBytesFV 4 [(9 : Byte), 9, 9, 9] = .ok v) := by
  have h := C7_fixed_vector_length decodeByte 1 4 (by decide)
    (fun s hs => decodeByte_total s hs)
  exact ⟨h.1 _ (by decide), h.2.1 _ (by decide)⟩

/-- C8: encoding is a total function on in-memory values — it always
returns a byte buffer at least as long as the type's fixed region and has
no error outcome; bounds are already enforced at construction (the value
types carry their bounds as invariants). -/
theorem C8_encode_total :
    (∀ v : ExecutionPayload, 512 ≤ (encodeExecutionPayload v).length)
  ∧ (∀ v : SignedBeaconBlock, 100 ≤ (encodeSignedBeaconBlock v).length) := by
  constructor
  · intro v
    rw [encodeExecutionPayload, containerEncode_length]
    have hfl : fixedRegionLen (layoutOfFields (executionPayloadFields v)) = 512 := by
      simp [executionPayloadFields, fixedRegionLen, layoutOfFields, slotLen,
        encodeBytesFV_length, encodeU64_length, encodeU256_length]
    omega
  · intro v
    rw [encodeSignedBeaconBlock, containerEncode_length]
    have hfl : fixedRegionLen (layoutOfFields (signedBeaconBlockFields v)) = 100 := by
      simp [signedBeaconBlockFields, fixedRegionLen, layoutOfFields, slotLen,
        encodeBytesFV_length]
    omega

/-- C9: `CustomBitList` is codec-transparent — it encodes exactly as its
inner bit list (a container wrapping would instead prepend a 4-byte
offset slot), and decoding as `CustomBitList` succeeds with the wrapped
value exactly when decoding as `BitList` succeeds. -/
theorem C9_custom_bitlist_transparent (maxN : Nat) :
    (∀ v : CustomBitList maxN, encodeCustomBitList v = encodeBitList v.inner)
  ∧ (∀ buf : List Byte, decodeCustomBitList maxN buf
      = (decodeBitList maxN buf).map CustomBitList.mk)
  ∧ (∀ v : CustomBitList maxN,
      containerEncode [(false, encodeCustomBitList v)]
        = encodeUintLE 4 4 ++ encodeCustomBitList v
      ∧ (containerEncode [(false, encodeCustomBitList v)]).length
          = (encodeCustomBitList v).length + 4) := by
  refine ⟨fun v => rfl, fun buf => rfl, fun v => ⟨?_, ?_⟩⟩
  · rw [containerEncode]
    simp
  · rw [containerEncode_length]
    simp [fixedRegionLen, layoutOfFields, slotLen, varTotal]
    omega

/-- C10: `CustomBitList::<N>::default()` never panics for any maximum —
`BitList::with_capacity(0)` always succeeds, since the empty bit list
satisfies every bound — and the default value is the empty bit list. -/
theorem C10_default_no_panic (maxN : Nat) :
    bitListWithCapacity maxN 0 = some (emptyBitList maxN)
  ∧ customBitListDefault maxN = some ⟨emptyBitList maxN⟩ := by
  have h : bitListWithCapacity maxN 0 = some (emptyBitList maxN) := by
    rw [bitListWithCapacity, dif_pos (Nat.zero_le maxN)]
    rfl
  exact ⟨h, by rw [customBitListDefault, h]; rfl⟩
